import Mathlib

/-!
Verification of the ArcGIS service-explorer crawler (src/main.py and
src/count_feature_records.py) against its specification.

The embedding models JSON descriptors as an inductive type, SQLite tables as
lists of rows, wall-clock timestamps as a monotone counter threaded through the
store state, and the HTTP fetcher as a finite association list from URLs to
descriptors (absence = fetch failure).  Operations that can raise a Python
exception return `Except`.
-/

/-- JSON values, as produced by `response.json()`.  Numbers are modelled as
integers; none of the crawler's control flow inspects numeric values. -/
inductive Json where
  | null : Json
  | bool (b : Bool) : Json
  | num (n : Int) : Json
  | str (s : String) : Json
  | arr (xs : List Json) : Json
  | obj (kvs : List (String × Json)) : Json
deriving Repr

mutual

/-- Structural equality of JSON values (Python `==` on parsed JSON). -/
def Json.beq : Json → Json → Bool
  | .null, .null => true
  | .bool a, .bool b => a == b
  | .num a, .num b => a == b
  | .str a, .str b => a == b
  | .arr a, .arr b => Json.beqList a b
  | .obj a, .obj b => Json.beqObj a b
  | _, _ => false

def Json.beqList : List Json → List Json → Bool
  | [], [] => true
  | a :: as_, b :: bs => Json.beq a b && Json.beqList as_ bs
  | _, _ => false

def Json.beqObj : List (String × Json) → List (String × Json) → Bool
  | [], [] => true
  | (k1, v1) :: as_, (k2, v2) :: bs => k1 == k2 && Json.beq v1 v2 && Json.beqObj as_ bs
  | _, _ => false

end

instance : BEq Json := ⟨Json.beq⟩

mutual

theorem Json.beq_refl : ∀ a : Json, Json.beq a a = true
  | .null => rfl
  | .bool b => by simp [Json.beq]
  | .num n => by simp [Json.beq]
  | .str s => by simp [Json.beq]
  | .arr xs => by simp [Json.beq, Json.beqList_refl xs]
  | .obj kvs => by simp [Json.beq, Json.beqObj_refl kvs]

theorem Json.beqList_refl : ∀ xs : List Json, Json.beqList xs xs = true
  | [] => rfl
  | x :: xs => by simp [Json.beqList, Json.beq_refl x, Json.beqList_refl xs]

theorem Json.beqObj_refl : ∀ kvs : List (String × Json), Json.beqObj kvs kvs = true
  | [] => rfl
  | (k, v) :: kvs => by simp [Json.beqObj, Json.beq_refl v, Json.beqObj_refl kvs]

end

mutual

theorem Json.eq_of_beq : ∀ a b : Json, Json.beq a b = true → a = b
  | .null, .null, _ => rfl
  | .bool a, .bool b, h => by simp [Json.beq] at h; simp [h]
  | .num a, .num b, h => by simp [Json.beq] at h; simp [h]
  | .str a, .str b, h => by simp [Json.beq] at h; simp [h]
  | .arr a, .arr b, h => by
      simp only [Json.beq] at h
      exact congrArg Json.arr (Json.eqList_of_beq a b h)
  | .obj a, .obj b, h => by
      simp only [Json.beq] at h
      exact congrArg Json.obj (Json.eqObj_of_beq a b h)
  | .null, .bool _, h => by simp [Json.beq] at h
  | .null, .num _, h => by simp [Json.beq] at h
  | .null, .str _, h => by simp [Json.beq] at h
  | .null, .arr _, h => by simp [Json.beq] at h
  | .null, .obj _, h => by simp [Json.beq] at h
  | .bool _, .null, h => by simp [Json.beq] at h
  | .bool _, .num _, h => by simp [Json.beq] at h
  | .bool _, .str _, h => by simp [Json.beq] at h
  | .bool _, .arr _, h => by simp [Json.beq] at h
  | .bool _, .obj _, h => by simp [Json.beq] at h
  | .num _, .null, h => by simp [Json.beq] at h
  | .num _, .bool _, h => by simp [Json.beq] at h
  | .num _, .str _, h => by simp [Json.beq] at h
  | .num _, .arr _, h => by simp [Json.beq] at h
  | .num _, .obj _, h => by simp [Json.beq] at h
  | .str _, .null, h => by simp [Json.beq] at h
  | .str _, .bool _, h => by simp [Json.beq] at h
  | .str _, .num _, h => by simp [Json.beq] at h
  | .str _, .arr _, h => by simp [Json.beq] at h
  | .str _, .obj _, h => by simp [Json.beq] at h
  | .arr _, .null, h => by simp [Json.beq] at h
  | .arr _, .bool _, h => by simp [Json.beq] at h
  | .arr _, .num _, h => by simp [Json.beq] at h
  | .arr _, .str _, h => by simp [Json.beq] at h
  | .arr _, .obj _, h => by simp [Json.beq] at h
  | .obj _, .null, h => by simp [Json.beq] at h
  | .obj _, .bool _, h => by simp [Json.beq] at h
  | .obj _, .num _, h => by simp [Json.beq] at h
  | .obj _, .str _, h => by simp [Json.beq] at h
  | .obj _, .arr _, h => by simp [Json.beq] at h

theorem Json.eqList_of_beq : ∀ a b : List Json, Json.beqList a b = true → a = b
  | [], [], _ => rfl
  | [], _ :: _, h => by simp [Json.beqList] at h
  | _ :: _, [], h => by simp [Json.beqList] at h
  | x :: xs, y :: ys, h => by
      simp only [Json.beqList, Bool.and_eq_true] at h
      rw [Json.eq_of_beq x y h.1, Json.eqList_of_beq xs ys h.2]

theorem Json.eqObj_of_beq : ∀ a b : List (String × Json), Json.beqObj a b = true → a = b
  | [], [], _ => rfl
  | [], _ :: _, h => by simp [Json.beqObj] at h
  | _ :: _, [], h => by simp [Json.beqObj] at h
  | (k1, v1) :: xs, (k2, v2) :: ys, h => by
      simp only [Json.beqObj, Bool.and_eq_true, beq_iff_eq] at h
      rw [h.1.1, Json.eq_of_beq v1 v2 h.1.2, Json.eqObj_of_beq xs ys h.2]

end

instance : LawfulBEq Json where
  eq_of_beq h := Json.eq_of_beq _ _ h
  rfl := Json.beq_refl _

/-! ## Python string primitives

All string helpers are written over the character list of a `String` by plain
structural recursion, mirroring the CPython semantics of the methods used by
the source. -/

/-- Python `s.split(sep)` for a one-character separator: `""` splits to `[""]`,
adjacent separators yield empty pieces. -/
def pySplitChar (sep : Char) : List Char → List (List Char)
  | [] => [[]]
  | c :: rest =>
    let r := pySplitChar sep rest
    if c = sep then [] :: r
    else match r with
      | [] => [[c]]
      | h :: t => (c :: h) :: t

/-- Python `url.split("/")[-1]`: the last piece of the split. -/
def splitLastStr (s : String) : String :=
  ⟨(pySplitChar '/' s.data).getLastD []⟩

/-- Python `s.rstrip("/")`: drop all trailing `'/'` characters. -/
def rstripSlash (s : String) : String :=
  ⟨((s.data.reverse).dropWhile (fun c => c = '/')).reverse⟩

/-- Python `s[n:]`. -/
def strDrop (s : String) (n : Nat) : String :=
  ⟨s.data.drop n⟩

/-- ASCII lower-casing of one character, as Python `str.lower` acts on the
ASCII segment names compared by the crawler. -/
def asciiLower (c : Char) : Char :=
  if 'A' ≤ c ∧ c ≤ 'Z' then Char.ofNat (c.toNat + 32) else c

/-- Python `s.lower()` (ASCII range). -/
def strLower (s : String) : String :=
  ⟨s.data.map asciiLower⟩

/-- Python `s.startswith(p)`. -/
def pyStartsWith (s p : String) : Bool :=
  p.data.isPrefixOf s.data

/-- Python `s.endswith(p)`. -/
def pyEndsWith (s p : String) : Bool :=
  p.data.isSuffixOf s.data

/-- Python `sub in s` substring test for strings (empty `sub` is always in). -/
def strContainsSub (sub : String) (s : String) : Bool :=
  go sub.data s.data
where
  go (sub : List Char) : List Char → Bool
    | [] => sub.isPrefixOf []
    | cs@(_ :: t) => sub.isPrefixOf cs || go sub t

/-- Code-point lexicographic `<` on character lists (Python string `<`). -/
def lexLt : List Char → List Char → Bool
  | [], [] => false
  | [], _ :: _ => true
  | _ :: _, [] => false
  | a :: as_, b :: bs => if a = b then lexLt as_ bs else decide (a.toNat < b.toNat)

/-- Python string `a <= b` (code-point order). -/
def strLeB (a b : String) : Bool :=
  !(lexLt b.data a.data)

/-! ## Deterministic JSON serialization: `json.dumps(x, sort_keys=True)` -/

/-- Insert a key/value pair into a key-sorted pair list (ascending). -/
def insertPair (p : String × Json) : List (String × Json) → List (String × Json)
  | [] => [p]
  | q :: rest => if strLeB p.1 q.1 then p :: q :: rest else q :: insertPair p rest

/-- Insertion sort of an object's pairs by key, as `sort_keys=True` orders
each object's keys. -/
def sortPairs : List (String × Json) → List (String × Json)
  | [] => []
  | p :: rest => insertPair p (sortPairs rest)

mutual

/-- Recursively sort every object's key list; serializing the result unsorted
equals serializing the original with `sort_keys=True`. -/
def sortJson : Json → Json
  | .null => .null
  | .bool b => .bool b
  | .num n => .num n
  | .str s => .str s
  | .arr xs => .arr (sortJsonList xs)
  | .obj kvs => .obj (sortPairs (sortJsonObj kvs))

def sortJsonList : List Json → List Json
  | [] => []
  | x :: xs => sortJson x :: sortJsonList xs

def sortJsonObj : List (String × Json) → List (String × Json)
  | [] => []
  | (k, v) :: kvs => (k, sortJson v) :: sortJsonObj kvs

end

/-- JSON string escaping for the quote and backslash characters.  The coded
inputs in this development are printable ASCII, for which `json.dumps` emits
exactly this escaping. -/
def escapeJson (s : String) : String :=
  ⟨s.data.foldr (fun c acc =>
      if c = '"' then '\\' :: '"' :: acc
      else if c = '\\' then '\\' :: '\\' :: acc
      else c :: acc) []⟩

mutual

/-- Serialization with CPython's default separators `", "` and `": "`,
keys emitted in list order. -/
def dumpsRaw : Json → String
  | .null => "null"
  | .bool true => "true"
  | .bool false => "false"
  | .num n => toString n
  | .str s => "\"" ++ escapeJson s ++ "\""
  | .arr xs => "[" ++ dumpsList xs ++ "]"
  | .obj kvs => "\x7b" ++ dumpsObj kvs ++ "\x7d"

def dumpsList : List Json → String
  | [] => ""
  | [x] => dumpsRaw x
  | x :: xs => dumpsRaw x ++ ", " ++ dumpsList xs

def dumpsObj : List (String × Json) → String
  | [] => ""
  | [(k, v)] => "\"" ++ escapeJson k ++ "\": " ++ dumpsRaw v
  | (k, v) :: kvs => "\"" ++ escapeJson k ++ "\": " ++ dumpsRaw v ++ ", " ++ dumpsObj kvs

end

/-- Python `json.dumps(j, sort_keys=True)`. -/
def dumps (j : Json) : String :=
  dumpsRaw (sortJson j)

/-! ## Python value semantics over JSON -/

/-- Errors a crawl step can produce: exhaustion of the step-count fuel of the
embedding, or a Python exception carrying the exception class name. -/
inductive CrawlErr where
  | fuelOut : CrawlErr
  | pyErr (msg : String) : CrawlErr
deriving Repr, BEq, DecidableEq

/-- Python truthiness of a parsed JSON value. -/
def pyTruthy : Json → Bool
  | .null => false
  | .bool b => b
  | .num n => n != 0
  | .str s => !s.data.isEmpty
  | .arr xs => !xs.isEmpty
  | .obj kvs => !kvs.isEmpty

/-- Python `a or b` (value-returning, first truthy operand). -/
def pyOr (a b : Json) : Json :=
  if pyTruthy a then a else b

/-- Python `str(x)` / f-string rendering for the values the crawler formats:
`None`, booleans, numbers and strings; containers (never formatted by the
source on real descriptors) are rendered as their serialization. -/
def pyStr : Json → String
  | .null => "None"
  | .bool true => "True"
  | .bool false => "False"
  | .num n => toString n
  | .str s => s
  | j => dumpsRaw j

/-- Python `x.get(k)` on a parsed value: key lookup with `None` default on a
dict, `AttributeError` on anything else. -/
def pyGet (j : Json) (k : String) : Except CrawlErr Json :=
  match j with
  | .obj kvs =>
    match kvs.find? (fun p => p.1 == k) with
    | some p => .ok p.2
    | none => .ok .null
  | _ => .error (.pyErr "AttributeError")

/-- Python `x[k]` subscription by a string key: lookup on a dict
(`KeyError` if absent), `TypeError` on anything else. -/
def pyGetItem (j : Json) (k : String) : Except CrawlErr Json :=
  match j with
  | .obj kvs =>
    match kvs.find? (fun p => p.1 == k) with
    | some p => .ok p.2
    | none => .error (.pyErr "KeyError")
  | _ => .error (.pyErr "TypeError")

/-- Python `k in x` for a string `k`: key test on a dict, membership on a
list, substring test on a string, `TypeError` on scalars. -/
def pyInE (k : String) (j : Json) : Except CrawlErr Bool :=
  match j with
  | .obj kvs => .ok (kvs.any (fun p => p.1 == k))
  | .arr xs => .ok (xs.any (fun x => x == .str k))
  | .str s => .ok (strContainsSub k s)
  | _ => .error (.pyErr "TypeError")

/-- Python `for x in j`: elements of a list, characters of a string, keys of
a dict, `TypeError` on scalars. -/
def pyIter (j : Json) : Except CrawlErr (List Json) :=
  match j with
  | .arr xs => .ok xs
  | .str s => .ok (s.data.map (fun c => .str ⟨[c]⟩))
  | .obj kvs => .ok (kvs.map (fun p => .str p.1))
  | _ => .error (.pyErr "TypeError")

/-! ## The versioned catalog store (SQLite tables as row lists)

Timestamps are drawn from a monotone counter `clock` carried in the state:
each store operation that calls `get_current_timestamp()` reads the counter
once and advances it. -/

/-- One row of the `resources` table (main.py `create_tables`). -/
structure ResourceRow where
  url : String
  rtype : String
  subtype : Json
  parent_url : Option String
  server_url : String
  accessible : Bool
  metadata : String
  name : Json
  description : Json
  start_timestamp : Nat
  end_timestamp : Option Nat
  active : Bool
deriving Repr, BEq

/-- One row of the `fields` table. -/
structure FieldRow where
  resource_url : String
  field_name : Json
  field_type : Json
  alias_ : Json
  start_timestamp : Nat
  end_timestamp : Option Nat
  active : Bool
deriving Repr, BEq

/-- One row of the `domains` table (append-only). -/
structure DomainRow where
  resource_url : String
  field_name : Json
  domain_code : String
  domain_value : Json
deriving Repr, BEq

/-- One row of the `counts` table (count_feature_records.py). -/
structure CountRow where
  layer_url : String
  record_count : Int
  timestamp : Nat
  active : Bool
deriving Repr, BEq

/-- The database state, together with the crawl session's visited set, the
fetch logs (one per `fetch_json` call site) and the timestamp counter. -/
structure St where
  resources : List ResourceRow
  fields : List FieldRow
  domains : List DomainRow
  counts : List CountRow
  visited : List String
  nodeFetchLog : List String
  refFetchLog : List String
  clock : Nat
deriving Repr, BEq

/-- The empty database with a fresh crawl session. -/
def emptySt : St :=
  ⟨[], [], [], [], [], [], [], 0⟩

/-- main.py `update_resource`: versioned (SCD2) upsert of a resource row.
If an active row for `url` exists with identical serialized metadata, do
nothing; otherwise end-date every active row for `url` and append a new
active row. -/
def update_resource (st : St) (url : String) (res_type : String) (res_subtype : Json)
    (parent_url : Option String) (server_url : String) (accessible : Bool)
    (metadata : Json) (name description : Json) : St :=
  let now := st.clock
  let new_metadata_str := dumps metadata
  let newRow : ResourceRow :=
    ⟨url, res_type, res_subtype, parent_url, server_url, accessible,
      new_metadata_str, name, description, now, none, true⟩
  match st.resources.find? (fun r => r.url == url && r.active) with
  | some row =>
    if row.metadata == new_metadata_str then st
    else
      let ended := st.resources.map (fun r =>
        if r.url == url && r.active then
          { r with end_timestamp := some now, active := false }
        else r)
      { st with resources := ended ++ [newRow], clock := now + 1 }
  | none =>
    { st with resources := st.resources ++ [newRow], clock := now + 1 }

/-- main.py `update_field`: the same SCD2 discipline scoped to
`(resource_url, field_name)`, comparing `(field_type, alias)` instead of
serialized metadata.  `field.get(...)` raises on a non-dict field entry. -/
def update_field (st : St) (resource_url : String) (field : Json) : Except CrawlErr St := do
  let now := st.clock
  let new_field_type ← pyGet field "type"
  let new_alias ← pyGet field "alias"
  let fname ← pyGet field "name"
  let newRow : FieldRow := ⟨resource_url, fname, new_field_type, new_alias, now, none, true⟩
  match st.fields.find? (fun f =>
      f.resource_url == resource_url && f.field_name == fname && f.active) with
  | some row =>
    if row.field_type == new_field_type && row.alias_ == new_alias then pure st
    else
      let ended := st.fields.map (fun f =>
        if f.resource_url == resource_url && f.field_name == fname && f.active then
          { f with end_timestamp := some now, active := false }
        else f)
      pure { st with fields := ended ++ [newRow], clock := now + 1 }
  | none =>
    pure { st with fields := st.fields ++ [newRow], clock := now + 1 }

/-- main.py `insert_domain`: append one coded-value row (`str(code)` applied
to the code). -/
def insert_domain (st : St) (resource_url : String) (field_name : Json)
    (code : Json) (value : Json) : St :=
  { st with domains := st.domains ++ [⟨resource_url, field_name, pyStr code, value⟩] }

/-- Loop body of `process_field_domain`: insert each coded value. -/
def processCodedValues (resource_url : String) (fname : Json) :
    List Json → St → Except CrawlErr St
  | [], st => pure st
  | cv :: rest, st => do
    let code ← pyGet cv "code"
    let name_val ← pyGet cv "name"
    processCodedValues resource_url fname rest (insert_domain st resource_url fname code name_val)

/-- main.py `process_field_domain`: if the field declares a truthy domain
with coded values, append one domain row per coded value. -/
def process_field_domain (st : St) (resource_url : String) (field : Json) :
    Except CrawlErr St := do
  let domain ← pyGet field "domain"
  if pyTruthy domain then do
    let hasCV ← pyInE "codedValues" domain
    if hasCV then do
      let cvs ← pyGetItem domain "codedValues"
      let cvList ← pyIter cvs
      let fname ← pyGet field "name"
      processCodedValues resource_url fname cvList st
    else pure st
  else pure st

/-- count_feature_records.py `insert_count`: unconditionally mark every
active count row for `layer_url` inactive, then append a new active row. -/
def insert_count (st : St) (layer_url : String) (record_count : Int) : St :=
  let now := st.clock
  let marked := st.counts.map (fun c =>
    if c.layer_url == layer_url && c.active then { c with active := false } else c)
  { st with counts := marked ++ [⟨layer_url, record_count, now, true⟩], clock := now + 1 }

/-- One store operation, for stating invariants over arbitrary operation
sequences. -/
inductive StoreOp where
  | resource (url : String) (res_type : String) (res_subtype : Json)
      (parent_url : Option String) (server_url : String) (accessible : Bool)
      (metadata : Json) (name description : Json) : StoreOp
  | field (resource_url : String) (f : Json) : StoreOp
  | domain (resource_url : String) (field_name code value : Json) : StoreOp
  | count (layer_url : String) (record_count : Int) : StoreOp

/-- Apply one store operation. -/
def applyOp (st : St) : StoreOp → Except CrawlErr St
  | .resource url ty sub parent server acc md nm ds =>
    pure (update_resource st url ty sub parent server acc md nm ds)
  | .field resource_url f => update_field st resource_url f
  | .domain resource_url field_name code value =>
    pure (insert_domain st resource_url field_name code value)
  | .count layer_url record_count => pure (insert_count st layer_url record_count)

/-- Apply a sequence of store operations left to right. -/
def applyOps : List StoreOp → St → Except CrawlErr St
  | [], st => pure st
  | op :: rest, st => do
    let st' ← applyOp st op
    applyOps rest st'

/-! ## Node classifier -/

/-- main.py `classify_resource`: type/subtype of a node from its URL, fetched
descriptor (`none` = fetch failed) and parent presence.  The folder test is
Python `data and ("folders" in data or "services" in data)`; the membership
test raises `TypeError` on truthy scalar data, which is propagated. -/
def classify_resource (url : String) (data : Option Json) (parent_url : Option String) :
    Except CrawlErr (String × Json) := do
  if parent_url.isNone then pure ("server", Json.null)
  else do
    let isFolder ←
      match data with
      | some d =>
        if pyTruthy d then do
          let hf ← pyInE "folders" d
          if hf then pure true else pyInE "services" d
        else pure false
      | none => pure false
    if isFolder then pure ("folder", Json.null)
    else if pyEndsWith url "Server" then
      pure ("service", Json.str (splitLastStr url))
    else pure ("unknown", Json.null)

/-! ## Tree walker -/

/-- The remote catalog: a finite map from URL to JSON descriptor.  A URL
outside the map is a fetch failure (`fetch_json` returns `(None, False)`). -/
def Catalog : Type :=
  List (String × Json)

/-- main.py `fetch_json` against the catalog: `some` descriptor on success,
`none` on failure. -/
def fetchJson (cat : Catalog) (url : String) : Option Json :=
  (List.find? (fun p => p.1 == url) cat).map (fun p => p.2)

/-- Models `urllib.parse.urljoin(base, rel)` at this program's call sites:
every call passes `base = url ++ "/"`, so a relative `rel` is appended to the
base and an absolute `rel` (carrying a scheme) replaces it.  Dot-segment
resolution is not exercised by this development. -/
def pyUrljoin (base rel : String) : String :=
  if pyStartsWith rel "http://" || pyStartsWith rel "https://" then rel else base ++ rel

/-- Last segment of the current node's URL: `url.rstrip("/").split("/")[-1]`. -/
def currentFolderSeg (url : String) : String :=
  splitLastStr (rstripSlash url)

/-- main.py crawl, services loop: the declared service name with a redundant
leading current-folder segment stripped — unless the current segment
lowercased is `rest` or `services`, in which case the name is untouched. -/
def adjustServiceName (url name_field : String) : String :=
  let current_folder := currentFolderSeg url
  if !((["rest", "services"] : List String).contains (strLower current_folder)) then
    if pyStartsWith name_field (current_folder ++ "/") then
      strDrop name_field (current_folder.length + 1)
    else name_field
  else name_field

/-- URL constructed for a declared child service with string name `name` and
engine type rendering `ty`: `urljoin(url + "/", f"{name}/{type}")` after the
name adjustment. -/
def serviceChildUrl (url name ty : String) : String :=
  pyUrljoin (url ++ "/") (adjustServiceName url name ++ "/" ++ ty)

/-- Modelled from the spec, §4.2 step 7 wording, for comparison with the
code: the redundant leading folder segment is stripped from the declared name
whenever the name repeats the current folder segment, with no exception for
any segment value. -/
def claimedServiceChildUrl (url name ty : String) : String :=
  let current_folder := currentFolderSeg url
  let adjusted :=
    if pyStartsWith name (current_folder ++ "/") then
      strDrop name (current_folder.length + 1)
    else name
  pyUrljoin (url ++ "/") (adjusted ++ "/" ++ ty)

/-- Fields loop shared by the layers and tables passes: versioned field
upsert plus domain extraction for each field entry. -/
def processFields (layer_url : String) : List Json → St → Except CrawlErr St
  | [], st => pure st
  | field :: rest, st => do
    let st ← update_field st layer_url field
    let st ← process_field_domain st layer_url field
    processFields layer_url rest st

/-- Folders loop of `crawl`: resolve each declared folder name against the
current URL and recurse (`rec` is the crawl at the remaining fuel, with the
current node as parent).  A non-string folder entry makes `urljoin` raise. -/
def processFolders (rec : String → St → Except CrawlErr St) (url : String) :
    List Json → St → Except CrawlErr St
  | [], st => pure st
  | f :: rest, st =>
    match f with
    | .str fs => do
      let folder_url := pyUrljoin (url ++ "/") fs
      let st' ← rec folder_url st
      processFolders rec url rest st'
    | _ => .error (.pyErr "TypeError")

/-- Services loop of `crawl`: reconstruct each declared service's URL and
recurse if not yet visited.  With a non-string declared name,
`name.startswith(...)` raises `AttributeError` — but only when the current
folder segment is subject to stripping (not `rest`/`services`). -/
def processServices (rec : String → St → Except CrawlErr St) (url : String) :
    List Json → St → Except CrawlErr St
  | [], st => pure st
  | svc :: rest, st => do
    let name_j ← pyGet svc "name"
    let ty_j ← pyGet svc "type"
    let current_folder := currentFolderSeg url
    let service_url ←
      match name_j with
      | .str s => pure (serviceChildUrl url s (pyStr ty_j))
      | other =>
        if (["rest", "services"] : List String).contains (strLower current_folder) then
          pure (pyUrljoin (url ++ "/") (pyStr other ++ "/" ++ pyStr ty_j))
        else .error (.pyErr "AttributeError")
    let st' ← if st.visited.contains service_url then pure st else rec service_url st
    processServices rec url rest st'

/-- Layers loop of `crawl`: each layer entry is fetched by reference; on a
successful truthy descriptor the layer is persisted type-pinned to `layer`
with its fields and domains, otherwise it is persisted from the summary entry
with the fetch's accessibility flag. -/
def processLayers (cat : Catalog) (url server_url : String) :
    List Json → St → Except CrawlErr St
  | [], st => pure st
  | layer :: rest, st => do
    let layer_id ← pyGet layer "id"
    let layer_url := pyUrljoin (url ++ "/") (pyStr layer_id)
    let layer_data? := fetchJson cat layer_url
    let st := { st with refFetchLog := st.refFetchLog ++ [layer_url] }
    let st' ←
      match layer_data? with
      | some layer_data =>
        if pyTruthy layer_data then do
          let l_name ← pyGet layer_data "name"
          let l_description ← pyGet layer_data "description"
          let l_subtype ← pyGet layer_data "type"
          let st := update_resource st layer_url "layer" l_subtype (some url) server_url
            true layer_data l_name l_description
          let fieldsJ ← pyGet layer_data "fields"
          let fl ← pyIter (pyOr fieldsJ (Json.arr []))
          processFields layer_url fl st
        else
          pure (update_resource st layer_url "layer" Json.null (some url) server_url
            true layer Json.null Json.null)
      | none =>
        pure (update_resource st layer_url "layer" Json.null (some url) server_url
          false layer Json.null Json.null)
    processLayers cat url server_url rest st'

/-- Tables loop of `crawl`: as the layers loop, type-pinned to `table` and
with no subtype taken from the descriptor. -/
def processTables (cat : Catalog) (url server_url : String) :
    List Json → St → Except CrawlErr St
  | [], st => pure st
  | table :: rest, st => do
    let table_id ← pyGet table "id"
    let table_url := pyUrljoin (url ++ "/") (pyStr table_id)
    let table_data? := fetchJson cat table_url
    let st := { st with refFetchLog := st.refFetchLog ++ [table_url] }
    let st' ←
      match table_data? with
      | some table_data =>
        if pyTruthy table_data then do
          let t_name ← pyGet table_data "name"
          let t_description ← pyGet table_data "description"
          let st := update_resource st table_url "table" Json.null (some url) server_url
            true table_data t_name t_description
          let fieldsJ ← pyGet table_data "fields"
          let fl ← pyIter (pyOr fieldsJ (Json.arr []))
          processFields table_url fl st
        else
          pure (update_resource st table_url "table" Json.null (some url) server_url
            true table Json.null Json.null)
      | none =>
        pure (update_resource st table_url "table" Json.null (some url) server_url
          false table Json.null Json.null)
    processTables cat url server_url rest st'

/-- The name/description/subtype derivation block of `crawl`: service and
layer nodes read display fields from a truthy descriptor, everything else
keeps `None` and the classifier's subtype. -/
def deriveNameDesc (res_type : String) (data? : Option Json) (sub : Json) :
    Except CrawlErr (Json × Json × Json) :=
  if res_type == "service" then
    match data? with
    | some d =>
      if pyTruthy d then do
        let mn ← pyGet d "mapName"
        let n ← pyGet d "name"
        let sd ← pyGet d "serviceDescription"
        pure (pyOr mn n, sd, sub)
      else pure (Json.null, Json.null, sub)
    | none => pure (Json.null, Json.null, sub)
  else if res_type == "layer" then
    match data? with
    | some d =>
      if pyTruthy d then do
        let n ← pyGet d "name"
        let ds ← pyGet d "description"
        let t ← pyGet d "type"
        pure (n, ds, t)
      else pure (Json.null, Json.null, sub)
    | none => pure (Json.null, Json.null, sub)
  else pure (Json.null, Json.null, sub)

/-- The `if "folders" in data:` block of `crawl`. -/
def stageFolders (rec : String → St → Except CrawlErr St) (url : String) (data : Json)
    (st : St) : Except CrawlErr St := do
  let hasFolders ← pyInE "folders" data
  if hasFolders then do
    let fj ← pyGetItem data "folders"
    let fl ← pyIter fj
    processFolders rec url fl st
  else pure st

/-- The `if "services" in data:` block of `crawl`. -/
def stageServices (rec : String → St → Except CrawlErr St) (url : String) (data : Json)
    (st : St) : Except CrawlErr St := do
  let hasServices ← pyInE "services" data
  if hasServices then do
    let sj ← pyGetItem data "services"
    let sl ← pyIter sj
    processServices rec url sl st
  else pure st

/-- The `if "layers" in data:` block of `crawl`. -/
def stageLayers (cat : Catalog) (url server_url : String) (data : Json)
    (st : St) : Except CrawlErr St := do
  let hasLayers ← pyInE "layers" data
  if hasLayers then do
    let lj ← pyGetItem data "layers"
    let ll ← pyIter lj
    processLayers cat url server_url ll st
  else pure st

/-- The `if "tables" in data:` block of `crawl`. -/
def stageTables (cat : Catalog) (url server_url : String) (data : Json)
    (st : St) : Except CrawlErr St := do
  let hasTables ← pyInE "tables" data
  if hasTables then do
    let tj ← pyGetItem data "tables"
    let tl ← pyIter tj
    processTables cat url server_url tl st
  else pure st

/-- main.py `crawl(url, conn, server_url, parent_url, visited)`: recursive
catalog traversal.  The first `Nat` argument is recursion fuel, an artifact
of the embedding: enough fuel makes the result fuel-independent (see the
termination theorem), and `.error .fuelOut` is returned only on exhaustion.
A URL already visited returns the state unchanged before any fetch or write. -/
def crawl (cat : Catalog) : Nat → String → String → Option String → St → Except CrawlErr St
  | 0, _, _, _, _ => .error .fuelOut
  | fuel + 1, url, server_url, parent_url, st =>
    if st.visited.contains url then pure st
    else do
      let st := { st with visited := url :: st.visited }
      let data? := fetchJson cat url
      let st := { st with nodeFetchLog := st.nodeFetchLog ++ [url] }
      let accessible := data?.isSome
      let cls ← classify_resource url data? parent_url
      let res_type := cls.1
      let nd ← deriveNameDesc res_type data? cls.2
      let resource_name := nd.1
      let resource_description := nd.2.1
      let res_subtype := nd.2.2
      let data := data?.getD (Json.obj [])
      let st := update_resource st url res_type res_subtype parent_url server_url
        accessible data resource_name resource_description
      if !accessible then pure st
      else do
        let st ← stageFolders (fun u s => crawl cat fuel u server_url (some url) s) url data st
        let st ← stageServices (fun u s => crawl cat fuel u server_url (some url) s) url data st
        let st ← stageLayers cat url server_url data st
        stageTables cat url server_url data st

/-! ## Revisit scheduler -/

/-- One row of `processing_runs` (or, structurally identical, `count_runs`).
Run dates are modelled as integer day numbers: ISO `YYYY-MM-DD` strings
compare lexicographically exactly as their day numbers compare, and the
Python day difference `(today - last_run_date).days` is integer subtraction. -/
structure RunRow where
  server_url : String
  run_date : Int
  start_timestamp : Nat
  end_timestamp : Option Nat
deriving Repr, BEq

/-- Maximum of a list of dates (none on an empty list). -/
def maxDate : List Int → Option Int
  | [] => none
  | d :: rest =>
    match maxDate rest with
    | none => some d
    | some m => some (max d m)

/-- `SELECT run_date FROM ... WHERE server_url = ? ORDER BY run_date DESC
LIMIT 1`: the most recent recorded run date for the server. -/
def lastRunDate (runs : List RunRow) (server_url : String) : Option Int :=
  maxDate ((runs.filter (fun r => r.server_url == server_url)).map (fun r => r.run_date))

/-- main.py `should_process_server`: run unconditionally when
`revisit_days = 0`, else run iff there is no prior run or the calendar-day
difference between today and the most recent run date is at least
`revisit_days`. -/
def should_process_server (runs : List RunRow) (server_url : String)
    (revisit_days today : Int) : Bool :=
  if revisit_days == 0 then true
  else
    match lastRunDate runs server_url with
    | none => true
    | some last => decide (revisit_days ≤ today - last)

/-- count_feature_records.py `should_process_server_count`: the same policy
over the `count_runs` table. -/
def should_process_server_count (runs : List RunRow) (server_url : String)
    (count_revisit_days today : Int) : Bool :=
  if count_revisit_days == 0 then true
  else
    match lastRunDate runs server_url with
    | none => true
    | some last => decide (count_revisit_days ≤ today - last)

/-! ## Generic helpers for the proofs -/

theorem ebind_ok {ε α β : Type} (e : Except ε α) (f : α → Except ε β) (b : β) :
    (e >>= f = Except.ok b) ↔ ∃ a, e = Except.ok a ∧ f a = Except.ok b := by
  cases e <;> simp [Bind.bind, Except.bind]

theorem epure_ok {ε α : Type} (a b : α) :
    ((pure a : Except ε α) = Except.ok b) ↔ a = b := by
  simp [pure, Except.pure]

theorem countP_single {α : Type} (p : α → Bool) (x : α) :
    List.countP p [x] = if p x then 1 else 0 := by
  by_cases h : p x <;> simp [List.countP_cons, h]

theorem countP_congr_fun {α : Type} (p q : α → Bool) :
    ∀ l : List α, (∀ a ∈ l, p a = q a) → List.countP p l = List.countP q l
  | [], _ => rfl
  | x :: xs, h => by
    have hx := h x (by simp)
    have ht := countP_congr_fun p q xs (fun a ha => h a (by simp [ha]))
    simp [List.countP_cons, hx, ht]

/-! ## The single-active-version invariant (claim C1) -/

/-- An active resource row for the given url. -/
def resActive (u : String) (r : ResourceRow) : Bool :=
  r.url == u && r.active

/-- An active field row for the given `(resource_url, field_name)` key. -/
def fieldActiveKey (u : String) (n : Json) (f : FieldRow) : Bool :=
  f.resource_url == u && f.field_name == n && f.active

/-- An active count row for the given layer url. -/
def countActiveKey (u : String) (c : CountRow) : Bool :=
  c.layer_url == u && c.active

/-- At most one active resource version per url and at most one active field
version per `(resource_url, field_name)`. -/
def storeInv (st : St) : Prop :=
  (∀ u, List.countP (resActive u) st.resources ≤ 1) ∧
  (∀ u n, List.countP (fieldActiveKey u n) st.fields ≤ 1)

theorem update_resource_resources_inv (st : St) (url res_type : String) (res_subtype : Json)
    (parent_url : Option String) (server_url : String) (accessible : Bool)
    (metadata name description : Json)
    (h : ∀ u, List.countP (resActive u) st.resources ≤ 1) (u : String) :
    List.countP (resActive u)
      (update_resource st url res_type res_subtype parent_url server_url accessible
        metadata name description).resources ≤ 1 := by
  unfold update_resource
  cases hf : List.find? (fun r => r.url == url && r.active) st.resources with
  | none =>
    have hnone := List.find?_eq_none.mp hf
    simp only [List.countP_append]
    by_cases hu : u = url
    · subst hu
      have h0 : List.countP (resActive u) st.resources = 0 :=
        List.countP_eq_zero.mpr (fun r hr => by simpa [resActive] using hnone r hr)
      rw [h0, countP_single]
      split <;> simp
    · rw [countP_single]
      have hnew : resActive u
          ({ url := url, rtype := res_type, subtype := res_subtype, parent_url := parent_url,
             server_url := server_url, accessible := accessible, metadata := dumps metadata,
             name := name, description := description, start_timestamp := st.clock,
             end_timestamp := none, active := true } : ResourceRow) = false := by
        simp [resActive, beq_false_of_ne (Ne.symm hu)]
      rw [hnew]
      simpa using h u
  | some row =>
    by_cases hm : (row.metadata == dumps metadata) = true
    · simp only [hm, if_true]
      exact h u
    · simp only [hm, if_false, Bool.false_eq_true]
      simp only [List.countP_append]
      by_cases hu : u = url
      · subst hu
        have h0 : List.countP (resActive u)
            (st.resources.map (fun r =>
              if r.url == u && r.active then
                { r with end_timestamp := some st.clock, active := false }
              else r)) = 0 := by
          rw [List.countP_map]
          refine List.countP_eq_zero.mpr (fun r _ => ?_)
          simp only [Function.comp_apply, Bool.not_eq_true]
          by_cases hc : (r.url == u && r.active) = true
          · rw [if_pos hc]
            simp [resActive]
          · rw [if_neg hc]
            simpa [resActive] using hc
        rw [h0, countP_single]
        split <;> simp
      · have hru : (url == u) = false := beq_false_of_ne (Ne.symm hu)
        have h1 : List.countP (resActive u)
            (st.resources.map (fun r =>
              if r.url == url && r.active then
                { r with end_timestamp := some st.clock, active := false }
              else r)) = List.countP (resActive u) st.resources := by
          rw [List.countP_map]
          refine countP_congr_fun _ _ _ (fun r _ => ?_)
          simp only [Function.comp_apply]
          by_cases hc : (r.url == url && r.active) = true
          · rw [if_pos hc]
            have hrurl : r.url = url := by
              have hc' := hc
              simp only [Bool.and_eq_true, beq_iff_eq] at hc'
              exact hc'.1
            simp [resActive, hrurl, hru]
          · rw [if_neg hc]
        rw [h1, countP_single]
        have hnew : resActive u
            ({ url := url, rtype := res_type, subtype := res_subtype, parent_url := parent_url,
               server_url := server_url, accessible := accessible, metadata := dumps metadata,
               name := name, description := description, start_timestamp := st.clock,
               end_timestamp := none, active := true } : ResourceRow) = false := by
          simp [resActive, hru]
        rw [hnew]
        simpa using h u

theorem update_resource_fields_eq (st : St) (url res_type : String) (res_subtype : Json)
    (parent_url : Option String) (server_url : String) (accessible : Bool)
    (metadata name description : Json) :
    (update_resource st url res_type res_subtype parent_url server_url accessible
      metadata name description).fields = st.fields := by
  unfold update_resource
  cases List.find? (fun r => r.url == url && r.active) st.resources with
  | none => rfl
  | some row => by_cases hm : (row.metadata == dumps metadata) = true <;> simp [hm]

theorem countP_map_append_le {α : Type} (l : List α) (f : α → α) (x : α) (p : α → Bool)
    (bound : List.countP p l ≤ 1)
    (hcase : ((∀ a, p (f a) = false) ∧ p x = true) ∨ ((∀ a, p (f a) = p a) ∧ p x = false)) :
    List.countP p (l.map f ++ [x]) ≤ 1 := by
  rw [List.countP_append, List.countP_map, countP_single]
  rcases hcase with ⟨hall, hx⟩ | ⟨hall, hx⟩
  · have h0 : List.countP (p ∘ f) l = 0 :=
      List.countP_eq_zero.mpr (fun a _ => by simp [Function.comp_apply, hall a])
    rw [h0, hx]
    simp
  · have h1 : List.countP (p ∘ f) l = List.countP p l :=
      countP_congr_fun _ _ _ (fun a _ => by simp [Function.comp_apply, hall a])
    rw [h1, hx]
    simpa using bound

theorem update_field_ok_inv (st : St) (ru : String) (fj : Json) (st' : St)
    (h : update_field st ru fj = .ok st') :
    st'.resources = st.resources ∧ st'.domains = st.domains ∧ st'.counts = st.counts ∧
    st'.visited = st.visited ∧ st'.nodeFetchLog = st.nodeFetchLog ∧
    st'.refFetchLog = st.refFetchLog ∧
    (∀ u n, List.countP (fieldActiveKey u n) st.fields ≤ 1 →
      List.countP (fieldActiveKey u n) st'.fields ≤ 1) := by
  unfold update_field at h
  simp only [ebind_ok] at h
  obtain ⟨ft, hft, h⟩ := h
  obtain ⟨al, hal, h⟩ := h
  obtain ⟨fn, hfn, h⟩ := h
  cases hfind : List.find? (fun f =>
      f.resource_url == ru && f.field_name == fn && f.active) st.fields with
  | some row =>
    rw [hfind] at h
    simp only [] at h
    by_cases hsame : (row.field_type == ft && row.alias_ == al) = true
    · rw [if_pos hsame] at h
      rw [epure_ok] at h
      subst h
      exact ⟨rfl, rfl, rfl, rfl, rfl, rfl, fun u n hb => hb⟩
    · rw [if_neg hsame] at h
      rw [epure_ok] at h
      subst h
      refine ⟨rfl, rfl, rfl, rfl, rfl, rfl, fun u n hb => ?_⟩
      refine countP_map_append_le _ _ _ _ hb ?_
      by_cases hu : u = ru
      · by_cases hn : n = fn
        · subst hu; subst hn
          left
          constructor
          · intro a
            by_cases hc : (a.resource_url == u && a.field_name == n && a.active) = true
            · rw [if_pos hc]
              simp [fieldActiveKey]
            · rw [if_neg hc]
              simpa [fieldActiveKey] using hc
          · simp [fieldActiveKey]
        · right
          constructor
          · intro a
            by_cases hc : (a.resource_url == ru && a.field_name == fn && a.active) = true
            · rw [if_pos hc]
              have hc' := hc
              simp only [Bool.and_eq_true, beq_iff_eq] at hc'
              simp [fieldActiveKey, hc'.1.2, beq_false_of_ne (Ne.symm hn)]
            · rw [if_neg hc]
          · simp [fieldActiveKey, beq_false_of_ne (Ne.symm hn)]
      · right
        constructor
        · intro a
          by_cases hc : (a.resource_url == ru && a.field_name == fn && a.active) = true
          · rw [if_pos hc]
            have hc' := hc
            simp only [Bool.and_eq_true, beq_iff_eq] at hc'
            simp [fieldActiveKey, hc'.1.1, beq_false_of_ne (Ne.symm hu)]
          · rw [if_neg hc]
        · simp [fieldActiveKey, beq_false_of_ne (Ne.symm hu)]
  | none =>
    rw [hfind] at h
    simp only [] at h
    rw [epure_ok] at h
    subst h
    refine ⟨rfl, rfl, rfl, rfl, rfl, rfl, fun u n hb => ?_⟩
    have hnone := List.find?_eq_none.mp hfind
    rw [List.countP_append, countP_single]
    by_cases hu : u = ru
    · by_cases hn : n = fn
      · subst hu; subst hn
        have h0 : List.countP (fieldActiveKey u n) st.fields = 0 :=
          List.countP_eq_zero.mpr (fun a ha => by
            simpa [fieldActiveKey] using hnone a ha)
        rw [h0]
        split <;> simp
      · have hx : fieldActiveKey u n
            ({ resource_url := ru, field_name := fn, field_type := ft, alias_ := al,
               start_timestamp := st.clock, end_timestamp := none, active := true } : FieldRow)
            = false := by
          simp [fieldActiveKey, beq_false_of_ne (Ne.symm hn)]
        rw [hx]
        simpa using hb
    · have hx : fieldActiveKey u n
          ({ resource_url := ru, field_name := fn, field_type := ft, alias_ := al,
             start_timestamp := st.clock, end_timestamp := none, active := true } : FieldRow)
          = false := by
        simp [fieldActiveKey, beq_false_of_ne (Ne.symm hu)]
      rw [hx]
      simpa using hb

theorem update_resource_frame (st : St) (url res_type : String) (res_subtype : Json)
    (parent_url : Option String) (server_url : String) (accessible : Bool)
    (metadata name description : Json) :
    (update_resource st url res_type res_subtype parent_url server_url accessible
      metadata name description).fields = st.fields ∧
    (update_resource st url res_type res_subtype parent_url server_url accessible
      metadata name description).domains = st.domains ∧
    (update_resource st url res_type res_subtype parent_url server_url accessible
      metadata name description).counts = st.counts ∧
    (update_resource st url res_type res_subtype parent_url server_url accessible
      metadata name description).visited = st.visited ∧
    (update_resource st url res_type res_subtype parent_url server_url accessible
      metadata name description).nodeFetchLog = st.nodeFetchLog ∧
    (update_resource st url res_type res_subtype parent_url server_url accessible
      metadata name description).refFetchLog = st.refFetchLog := by
  unfold update_resource
  cases List.find? (fun r => r.url == url && r.active) st.resources with
  | none => exact ⟨rfl, rfl, rfl, rfl, rfl, rfl⟩
  | some row =>
    by_cases hm : (row.metadata == dumps metadata) = true <;> simp [hm]

theorem insert_count_frame (st : St) (layer : String) (c : Int) :
    (insert_count st layer c).resources = st.resources ∧
    (insert_count st layer c).fields = st.fields ∧
    (insert_count st layer c).domains = st.domains ∧
    (insert_count st layer c).visited = st.visited ∧
    (insert_count st layer c).nodeFetchLog = st.nodeFetchLog ∧
    (insert_count st layer c).refFetchLog = st.refFetchLog :=
  ⟨rfl, rfl, rfl, rfl, rfl, rfl⟩

theorem applyOp_storeInv (st : St) (op : StoreOp) (st' : St)
    (h : applyOp st op = .ok st') (hinv : storeInv st) : storeInv st' := by
  cases op with
  | resource url ty sub parent server acc md nm ds =>
    simp only [applyOp, epure_ok] at h
    subst h
    refine ⟨fun u => update_resource_resources_inv st url ty sub parent server acc md nm ds
      hinv.1 u, fun u n => ?_⟩
    rw [(update_resource_frame st url ty sub parent server acc md nm ds).1]
    exact hinv.2 u n
  | field ru f =>
    simp only [applyOp] at h
    obtain ⟨hres, _, _, _, _, _, hfields⟩ := update_field_ok_inv st ru f st' h
    exact ⟨fun u => by rw [hres]; exact hinv.1 u, fun u n => hfields u n (hinv.2 u n)⟩
  | domain ru fn code v =>
    simp only [applyOp, epure_ok] at h
    subst h
    exact ⟨fun u => hinv.1 u, fun u n => hinv.2 u n⟩
  | count layer c =>
    simp only [applyOp, epure_ok] at h
    subst h
    refine ⟨fun u => ?_, fun u n => ?_⟩
    · rw [(insert_count_frame st layer c).1]
      exact hinv.1 u
    · rw [(insert_count_frame st layer c).2.1]
      exact hinv.2 u n

theorem applyOps_storeInv : ∀ (ops : List StoreOp) (st st' : St),
    applyOps ops st = .ok st' → storeInv st → storeInv st'
  | [], st, st', h, hi => by
    simp only [applyOps, epure_ok] at h
    subst h
    exact hi
  | op :: rest, st, st', h, hi => by
    unfold applyOps at h
    simp only [ebind_ok] at h
    obtain ⟨mid, h1, h2⟩ := h
    exact applyOps_storeInv rest mid st' h2 (applyOp_storeInv st op mid h1 hi)

/-- C1: after any sequence of store operations, at most one `Resource` row per
url is active and at most one `Field` row per `(resource_url, field_name)` is
active: every operation of the store preserves the single-active-version
invariant, and any operation sequence applied to the empty store satisfies
it. -/
theorem store_single_active_invariant :
    (∀ (ops : List StoreOp) (st st' : St),
      applyOps ops st = .ok st' → storeInv st → storeInv st') ∧
    (∀ (ops : List StoreOp) (st' : St),
      applyOps ops emptySt = .ok st' → storeInv st') := by
  have he : storeInv emptySt :=
    ⟨fun u => by simp [emptySt], fun u n => by simp [emptySt]⟩
  exact ⟨applyOps_storeInv,
    fun ops st' h => applyOps_storeInv ops emptySt st' h he⟩

/-- Concrete operation sequence: two metadata versions of one resource, two
versions of one field, one count snapshot. -/
def opsW : List StoreOp :=
  [ .resource "http://h/S/0" "layer" Json.null none "http://h" true
      (Json.obj [("a", Json.num 1)]) Json.null Json.null,
    .resource "http://h/S/0" "layer" Json.null none "http://h" true
      (Json.obj [("a", Json.num 2)]) Json.null Json.null,
    .field "http://h/S/0" (Json.obj [("name", Json.str "OID"), ("type", Json.str "t")]),
    .field "http://h/S/0" (Json.obj [("name", Json.str "OID"), ("type", Json.str "t2")]),
    .count "http://h/S/0" 5 ]

theorem store_single_active_invariant_witness :
    storeInv ((applyOps opsW emptySt).toOption.getD emptySt) :=
  store_single_active_invariant.2 opsW ((applyOps opsW emptySt).toOption.getD emptySt) (by rfl)

/-! ## Count snapshots (claim C3) -/

theorem insert_count_active_one (st : St) (layer : String) (c : Int) :
    List.countP (countActiveKey layer) (insert_count st layer c).counts = 1 := by
  unfold insert_count
  simp only [List.countP_append, List.countP_map, countP_single]
  have h0 : List.countP (countActiveKey layer ∘ fun r =>
      if r.layer_url == layer && r.active then { r with active := false } else r)
      st.counts = 0 := by
    refine List.countP_eq_zero.mpr (fun r _ => ?_)
    simp only [Function.comp_apply, Bool.not_eq_true]
    by_cases hc : (r.layer_url == layer && r.active) = true
    · rw [if_pos hc]
      simp [countActiveKey]
    · rw [if_neg hc]
      simpa [countActiveKey] using hc
  rw [h0]
  simp [countActiveKey]

theorem count_fresh_map_id (counts : List CountRow) (layer : String)
    (hfresh : List.countP (fun r => r.layer_url == layer) counts = 0) :
    counts.map (fun r =>
      if r.layer_url == layer && r.active then { r with active := false } else r) = counts := by
  have hmem := List.countP_eq_zero.mp hfresh
  have : ∀ r ∈ counts, (if r.layer_url == layer && r.active then
      ({ r with active := false } : CountRow) else r) = r := by
    intro r hr
    have hne : (r.layer_url == layer) = false := by
      have := hmem r hr
      simpa using this
    rw [if_neg (by simp [hne])]
  calc counts.map (fun r =>
        if r.layer_url == layer && r.active then { r with active := false } else r)
      = counts.map id := List.map_congr_left this
    _ = counts := List.map_id counts

/-- C3: `insert_count` always supersedes: after any sample there is exactly one
active count row for the layer, the inserted row is that active row, the table
always grows by one row regardless of the value, and sampling a layer twice
starting from a store with no rows for it leaves exactly one active and one
inactive count row for that layer. -/
theorem record_count_snapshot_always_supersedes :
    (∀ (st : St) (layer : String) (c : Int),
      List.countP (countActiveKey layer) (insert_count st layer c).counts = 1) ∧
    (∀ (st : St) (layer : String) (c : Int),
      ({ layer_url := layer, record_count := c, timestamp := st.clock, active := true }
        : CountRow) ∈ (insert_count st layer c).counts) ∧
    (∀ (st : St) (layer : String) (c : Int),
      (insert_count st layer c).counts.length = st.counts.length + 1) ∧
    (∀ (st : St) (layer : String) (c₁ c₂ : Int),
      List.countP (fun r => r.layer_url == layer) st.counts = 0 →
      List.countP (countActiveKey layer)
        (insert_count (insert_count st layer c₁) layer c₂).counts = 1 ∧
      List.countP (fun r => r.layer_url == layer && !r.active)
        (insert_count (insert_count st layer c₁) layer c₂).counts = 1) := by
  refine ⟨insert_count_active_one, fun st layer c => ?_, fun st layer c => ?_,
    fun st layer c₁ c₂ hfresh => ⟨insert_count_active_one _ layer c₂, ?_⟩⟩
  · unfold insert_count
    simp
  · unfold insert_count
    simp
  · have hc1 : (insert_count st layer c₁).counts =
        st.counts ++ [({ layer_url := layer, record_count := c₁,
                         timestamp := st.clock, active := true } : CountRow)] := by
      have : (insert_count st layer c₁).counts =
          st.counts.map (fun r =>
            if r.layer_url == layer && r.active then { r with active := false } else r) ++
          [({ layer_url := layer, record_count := c₁,
              timestamp := st.clock, active := true } : CountRow)] := rfl
      rw [this, count_fresh_map_id st.counts layer hfresh]
    have hc2 : (insert_count (insert_count st layer c₁) layer c₂).counts =
        (insert_count st layer c₁).counts.map (fun r =>
          if r.layer_url == layer && r.active then { r with active := false } else r) ++
        [({ layer_url := layer, record_count := c₂,
            timestamp := (insert_count st layer c₁).clock, active := true } : CountRow)] := rfl
    rw [hc2, hc1]
    rw [List.map_append, count_fresh_map_id st.counts layer hfresh]
    simp only [List.map_cons, List.map_nil]
    rw [if_pos (by simp)]
    simp only [List.countP_append]
    have h0 : List.countP (fun r => r.layer_url == layer && !r.active) st.counts = 0 := by
      refine List.countP_eq_zero.mpr (fun r hr => ?_)
      have := List.countP_eq_zero.mp hfresh r hr
      simp only [Bool.not_eq_true] at this ⊢
      simp [this]
    rw [h0]
    simp [countP_single]

theorem record_count_snapshot_always_supersedes_witness :
    List.countP (countActiveKey "http://h/S/0")
      (insert_count emptySt "http://h/S/0" 5).counts = 1 ∧
    List.countP (countActiveKey "http://h/S/0")
      (insert_count (insert_count emptySt "http://h/S/0" 3) "http://h/S/0" 3).counts = 1 ∧
    List.countP (fun r => r.layer_url == "http://h/S/0" && !r.active)
      (insert_count (insert_count emptySt "http://h/S/0" 3) "http://h/S/0" 3).counts = 1 :=
  ⟨record_count_snapshot_always_supersedes.1 emptySt "http://h/S/0" 5,
   (record_count_snapshot_always_supersedes.2.2.2 emptySt "http://h/S/0" 3 3
     (by simp [emptySt])).1,
   (record_count_snapshot_always_supersedes.2.2.2 emptySt "http://h/S/0" 3 3
     (by simp [emptySt])).2⟩

/-! ## Unchanged metadata is a no-op (claim C2) -/

/-- Root of the spec's end-to-end sample catalog. -/
def root8 : String :=
  "http://h/rest/services"

/-- URL of the sample catalog's service. -/
def svcUrl8 : String :=
  "http://h/rest/services/Fold1/Svc/MapServer"

/-- The spec's end-to-end sample catalog: a server root with one folder, one
service, one layer carrying one field. -/
def cat8 : Catalog :=
  [ (root8, Json.obj [("folders", Json.arr [Json.str "Fold1"])]),
    ("http://h/rest/services/Fold1",
      Json.obj [("services", Json.arr
        [Json.obj [("name", Json.str "Fold1/Svc"), ("type", Json.str "MapServer")]])]),
    (svcUrl8, Json.obj [("layers", Json.arr [Json.obj [("id", Json.num 0)]])]),
    (svcUrl8 ++ "/0",
      Json.obj [("name", Json.str "Roads"),
        ("fields", Json.arr
          [Json.obj [("name", Json.str "OID"), ("type", Json.str "esriFieldTypeOID")]])]) ]

/-- Start a fresh crawl session over an existing database. -/
def resetSession (st : St) : St :=
  { st with visited := [], nodeFetchLog := [], refFetchLog := [] }

/-- Database after a first full crawl of the sample catalog. -/
def firstCrawl8 : St :=
  (crawl cat8 12 root8 root8 none emptySt).toOption.getD emptySt

/-- Database after a second, byte-identical crawl of the sample catalog. -/
def recrawl8 : St :=
  (crawl cat8 12 root8 root8 none (resetSession firstCrawl8)).toOption.getD emptySt

/-- C2: when an active row exists for the url and its stored serialization
equals the new metadata's deterministic serialization, `update_resource`
returns the store unchanged (no insert, no timestamp or flag update); and a
byte-identical re-crawl of the sample catalog leaves the `resources` and
`fields` tables exactly as the first crawl left them. -/
theorem upsert_unchanged_is_noop :
    (∀ (st : St) (url res_type : String) (res_subtype : Json) (parent_url : Option String)
       (server_url : String) (accessible : Bool) (metadata name description : Json)
       (row : ResourceRow),
      List.find? (fun r => r.url == url && r.active) st.resources = some row →
      row.metadata = dumps metadata →
      update_resource st url res_type res_subtype parent_url server_url accessible
        metadata name description = st) ∧
    ((recrawl8.resources == firstCrawl8.resources) = true ∧
     (recrawl8.fields == firstCrawl8.fields) = true) := by
  constructor
  · intro st url res_type res_subtype parent_url server_url accessible metadata
      name description row hfind hmeta
    simp only [update_resource, hfind]
    rw [if_pos (by rw [hmeta]; simp)]
  · exact ⟨by rfl, by rfl⟩

/-- Store with one active resource row whose metadata is the serialization of
the empty object. -/
def stW2 : St :=
  { emptySt with resources :=
      [{ url := "u", rtype := "layer", subtype := Json.null, parent_url := none,
         server_url := "s", accessible := true, metadata := "\x7b\x7d", name := Json.null,
         description := Json.null, start_timestamp := 0, end_timestamp := none,
         active := true }] }

theorem upsert_unchanged_is_noop_witness :
    update_resource stW2 "u" "layer" Json.null none "s" true (Json.obj [])
      Json.null Json.null = stW2 :=
  upsert_unchanged_is_noop.1 stW2 "u" "layer" Json.null none "s" true (Json.obj [])
    Json.null Json.null _ (by rfl) (by rfl)

/-! ## Revisit scheduling policy (claim C4) -/

theorem maxDate_eq_none : ∀ l : List Int, maxDate l = none ↔ l = []
  | [] => by simp [maxDate]
  | d :: rest => by
    simp only [maxDate]
    cases maxDate rest <;> simp

/-- C4: `revisit_days = 0` always runs; for `d > 0` the server runs iff it has
no recorded run or the day difference from the most recent run date is at
least `d`, and in particular does not run on the same calendar day as its
last run; the count scheduler implements the identical policy. -/
theorem should_run_policy :
    (∀ (runs : List RunRow) (s : String) (today : Int),
      should_process_server runs s 0 today = true) ∧
    (∀ (runs : List RunRow) (s : String) (d today : Int), 0 < d →
      (should_process_server runs s d today = true ↔
        (runs.filter (fun r => r.server_url == s) = [] ∨
         ∃ last, lastRunDate runs s = some last ∧ d ≤ today - last))) ∧
    (∀ (runs : List RunRow) (s : String) (d last today : Int), 0 < d →
      lastRunDate runs s = some last → today = last →
      should_process_server runs s d today = false) ∧
    (∀ (runs : List RunRow) (s : String) (d today : Int),
      should_process_server_count runs s d today = should_process_server runs s d today) := by
  refine ⟨fun runs s today => by simp [should_process_server], ?_, ?_, fun _ _ _ _ => rfl⟩
  · intro runs s d today hd
    unfold should_process_server
    rw [if_neg (by simp [ne_of_gt hd])]
    cases hlast : lastRunDate runs s with
    | none =>
      have hfilter : runs.filter (fun r => r.server_url == s) = [] := by
        have := (maxDate_eq_none _).mp hlast
        simpa using this
      simp [hfilter]
    | some last =>
      have hfilter : ¬(runs.filter (fun r => r.server_url == s) = []) := by
        intro hnil
        rw [show lastRunDate runs s =
            maxDate ((runs.filter (fun r => r.server_url == s)).map
              (fun r => r.run_date)) from rfl, hnil] at hlast
        simp [maxDate] at hlast
      simp only [decide_eq_true_eq]
      constructor
      · intro hle
        exact Or.inr ⟨last, rfl, hle⟩
      · rintro (hnil | ⟨last', hlast', hle⟩)
        · exact absurd hnil hfilter
        · have heq := Option.some.inj hlast'
          subst heq
          exact hle
  · intro runs s d last today hd hlast htoday
    unfold should_process_server
    rw [if_neg (by simp [ne_of_gt hd])]
    rw [hlast]
    show decide (d ≤ today - last) = false
    subst htoday
    exact decide_eq_false (by omega)

/-- Prior-run history with a single run of server `s` on day 10. -/
def runsW : List RunRow :=
  [{ server_url := "s", run_date := 10, start_timestamp := 0, end_timestamp := none }]

theorem should_run_policy_witness :
    should_process_server runsW "s" 0 10 = true ∧
    (should_process_server runsW "s" 2 11 = true ↔
      (runsW.filter (fun r => r.server_url == "s") = [] ∨
       ∃ last, lastRunDate runsW "s" = some last ∧ 2 ≤ 11 - last)) ∧
    should_process_server runsW "s" 2 10 = false ∧
    should_process_server_count runsW "s" 2 10 = should_process_server runsW "s" 2 10 :=
  ⟨should_run_policy.1 runsW "s" 10,
   should_run_policy.2.1 runsW "s" 2 11 (by norm_num),
   should_run_policy.2.2.1 runsW "s" 2 10 10 (by norm_num) (by rfl) rfl,
   should_run_policy.2.2.2 runsW "s" 2 10⟩

/-! ## Classifier rules (claim C5) -/

/-- A descriptor contains a child-folders or child-services listing: the
mapping has the given key. -/
def jsonHasKey (d : Json) (k : String) : Bool :=
  match d with
  | .obj kvs => kvs.any (fun p => p.1 == k)
  | _ => false

/-- Modelled from the spec, §4.1: the classification rules evaluated in
order, first match wins — no parent, then a present descriptor carrying a
folders or services listing, then the URL's `Server` suffix with the last
path segment as subtype, then unknown. -/
def classifySpec (url : String) (data : Option Json) (parent_url : Option String) :
    String × Json :=
  if parent_url.isNone then ("server", Json.null)
  else if (match data with
           | some d => jsonHasKey d "folders" || jsonHasKey d "services"
           | none => false) then ("folder", Json.null)
  else if pyEndsWith url "Server" then ("service", Json.str (splitLastStr url))
  else ("unknown", Json.null)

/-- The descriptor domain: a JSON mapping, or nothing on fetch failure. -/
def IsDescriptor (data : Option Json) : Prop :=
  data = none ∨ ∃ kvs, data = some (Json.obj kvs)

theorem classify_eq_spec (url : String) (data : Option Json) (parent_url : Option String)
    (hd : IsDescriptor data) :
    classify_resource url data parent_url = .ok (classifySpec url data parent_url) := by
  rcases hd with rfl | ⟨kvs, rfl⟩
  · cases parent_url with
    | none => rfl
    | some p =>
      unfold classify_resource classifySpec
      cases hs : pyEndsWith url "Server" <;>
        simp [hs, pure, Except.pure, Bind.bind, Except.bind]
  · cases parent_url with
    | none => rfl
    | some p =>
      unfold classify_resource classifySpec
      cases kvs with
      | nil => cases hs : pyEndsWith url "Server" <;>
          simp [hs, jsonHasKey, pyTruthy, pyInE, pure, Except.pure, Bind.bind, Except.bind]
      | cons kv rest =>
        simp only [Option.isNone_some, if_false, Bool.false_eq_true]
        have htruthy : pyTruthy (Json.obj (kv :: rest)) = true := by simp [pyTruthy]
        cases hf : List.any (kv :: rest) (fun p => p.1 == "folders") with
        | true =>
          simp [htruthy, pyInE, hf, jsonHasKey, Bind.bind, Except.bind, pure, Except.pure]
        | false =>
          cases hsv : List.any (kv :: rest) (fun p => p.1 == "services") with
          | true =>
            simp [htruthy, pyInE, hf, hsv, jsonHasKey, Bind.bind, Except.bind, pure,
              Except.pure]
          | false =>
            cases hs : pyEndsWith url "Server" <;>
              simp [htruthy, pyInE, hf, hsv, hs, jsonHasKey, Bind.bind, Except.bind, pure,
                Except.pure]

/-- C5: on its domain — a fetched JSON mapping or a failed fetch — the
classifier is a pure total function computing exactly the spec's first-match
rule sequence, with a null or failed descriptor falling through to
`unknown`. -/
theorem classifier_rules_in_order (url : String) (data : Option Json)
    (parent_url : Option String) (hd : IsDescriptor data) :
    classify_resource url data parent_url = .ok (classifySpec url data parent_url) :=
  classify_eq_spec url data parent_url hd

theorem classifier_rules_in_order_witness :
    classify_resource "http://h/rest/services/F/Svc/MapServer"
        (some (Json.obj [("layers", Json.arr [])]))
        (some "http://h/rest/services/F") =
      .ok (classifySpec "http://h/rest/services/F/Svc/MapServer"
        (some (Json.obj [("layers", Json.arr [])]))
        (some "http://h/rest/services/F")) ∧
    classify_resource "http://h/bad" none (some "http://h") =
      .ok (classifySpec "http://h/bad" none (some "http://h")) :=
  ⟨classifier_rules_in_order _ _ _ (Or.inr ⟨_, rfl⟩),
   classifier_rules_in_order _ _ _ (Or.inl rfl)⟩

/-! ## Service child URL construction (claims C8, C10) -/

theorem service_url_strip_counterexample :
    serviceChildUrl "http://h/rest/services" "services/X" "MapServer" ≠
      claimedServiceChildUrl "http://h/rest/services" "services/X" "MapServer" := by
  decide

/-- C8 (amended): the service child URL joins the node URL with the pair
declared-name `/` declared-type, stripping a leading current-folder-segment
prefix from the declared name whenever the name repeats that segment —
except when the current segment lowercased is `rest` or `services`, where
the declared name is used verbatim. -/
theorem service_url_strip_amended :
    (∀ url name ty : String,
      ((["rest", "services"] : List String).contains (strLower (currentFolderSeg url))) = false →
      serviceChildUrl url name ty = claimedServiceChildUrl url name ty) ∧
    (∀ url name ty : String,
      ((["rest", "services"] : List String).contains (strLower (currentFolderSeg url))) = true →
      serviceChildUrl url name ty = pyUrljoin (url ++ "/") (name ++ "/" ++ ty)) := by
  constructor
  · intro url name ty h
    have h' : ¬strLower (currentFolderSeg url) = "rest" ∧
        ¬strLower (currentFolderSeg url) = "services" := by simpa using h
    simp [serviceChildUrl, claimedServiceChildUrl, adjustServiceName, h']
  · intro url name ty h
    have h' : strLower (currentFolderSeg url) = "rest" ∨
        strLower (currentFolderSeg url) = "services" := by simpa using h
    rcases h' with h' | h' <;> simp [serviceChildUrl, adjustServiceName, h']

theorem service_url_strip_amended_witness :
    serviceChildUrl "http://h/rest/services/BV" "BV/Roads" "MapServer" =
      claimedServiceChildUrl "http://h/rest/services/BV" "BV/Roads" "MapServer" ∧
    serviceChildUrl "http://h/rest/services" "services/X" "MapServer" =
      pyUrljoin ("http://h/rest/services" ++ "/") ("services/X" ++ "/" ++ "MapServer") :=
  ⟨service_url_strip_amended.1 "http://h/rest/services/BV" "BV/Roads" "MapServer" (by decide),
   service_url_strip_amended.2 "http://h/rest/services" "services/X" "MapServer" (by decide)⟩

/-- C10: when the current node's last URL segment lowercased is `rest` or
`services`, the prefix stripping is skipped and the declared service name is
used verbatim in the constructed URL, even when it begins with that segment
followed by a slash. -/
theorem service_name_verbatim_under_rest_services :
    ∀ url name ty : String,
      ((["rest", "services"] : List String).contains (strLower (currentFolderSeg url))) = true →
      serviceChildUrl url name ty = pyUrljoin (url ++ "/") (name ++ "/" ++ ty) := by
  intro url name ty h
  have h' : strLower (currentFolderSeg url) = "rest" ∨
      strLower (currentFolderSeg url) = "services" := by simpa using h
  rcases h' with h' | h' <;> simp [serviceChildUrl, adjustServiceName, h']

theorem service_name_verbatim_under_rest_services_witness :
    serviceChildUrl "http://h/ArcGIS/rest/Services" "Services/Foo" "MapServer" =
      pyUrljoin ("http://h/ArcGIS/rest/Services" ++ "/") ("Services/Foo" ++ "/" ++ "MapServer") :=
  service_name_verbatim_under_rest_services "http://h/ArcGIS/rest/Services" "Services/Foo"
    "MapServer" (by decide)

/-! ## Malformed descriptors raise out of the crawl (claim C9) -/

/-- Catalog with one folder node whose services listing has an entry with no
`name` key. -/
def cat9 : Catalog :=
  [ ("http://h/rest/services/F",
      Json.obj [("services", Json.arr [Json.obj [("type", Json.str "MapServer")]])]) ]

/-- C9 is violated by the code: crawling a folder whose descriptor contains a
service entry without a `name` key raises `AttributeError`
(`None.startswith`), which unwinds past the node and aborts the crawl
instead of being treated as a missing feature. -/
theorem malformed_service_entry_raises :
    crawl cat9 2 "http://h/rest/services/F" "http://h" (some "http://h/rest/services")
      emptySt = .error (.pyErr "AttributeError") := by
  rfl

/-! ## Fetch failure degrades the node (claim C7) -/

/-- C7: when the descriptor fetch for an unvisited url fails, `crawl`
persists that node exactly once — through a single `update_resource` call
with `accessible = false` and empty metadata — marks it visited, performs no
recursion into children, and returns successfully so the enclosing crawl
continues. -/
theorem crawl_fetch_failure (cat : Catalog) (fuel : Nat) (url server_url : String)
    (parent_url : Option String) (st : St)
    (hfail : fetchJson cat url = none)
    (hnew : st.visited.contains url = false) :
    crawl cat (fuel + 1) url server_url parent_url st =
      .ok (update_resource
            { st with visited := url :: st.visited,
                      nodeFetchLog := st.nodeFetchLog ++ [url] }
            url (classifySpec url none parent_url).1 (classifySpec url none parent_url).2
            parent_url server_url false (Json.obj []) Json.null Json.null) := by
  cases parent_url with
  | none =>
    unfold crawl
    rw [hnew, hfail]
    rfl
  | some p =>
    cases hs : pyEndsWith url "Server" with
    | false =>
      have hcls : classify_resource url none (some p) = .ok ("unknown", Json.null) := by
        show (if pyEndsWith url "Server" then
            (pure ("service", Json.str (splitLastStr url)) : Except CrawlErr (String × Json))
          else pure ("unknown", Json.null)) = _
        rw [hs]
        rfl
      have hspec : classifySpec url none (some p) = ("unknown", Json.null) := by
        show (if pyEndsWith url "Server" then ("service", Json.str (splitLastStr url))
          else ("unknown", Json.null)) = _
        rw [hs]
        rfl
      rw [hspec]
      unfold crawl
      rw [hnew, hfail]
      simp only []
      rw [hcls]
      rfl
    | true =>
      have hcls : classify_resource url none (some p) =
          .ok ("service", Json.str (splitLastStr url)) := by
        show (if pyEndsWith url "Server" then
            (pure ("service", Json.str (splitLastStr url)) : Except CrawlErr (String × Json))
          else pure ("unknown", Json.null)) = _
        rw [hs]
        rfl
      have hspec : classifySpec url none (some p) = ("service", Json.str (splitLastStr url)) := by
        show (if pyEndsWith url "Server" then ("service", Json.str (splitLastStr url))
          else ("unknown", Json.null)) = _
        rw [hs]
        rfl
      rw [hspec]
      unfold crawl
      rw [hnew, hfail]
      simp only []
      rw [hcls]
      rfl

theorem crawl_fetch_failure_witness :
    crawl ([] : Catalog) 3 "http://h/x" "http://h" (some "http://h") emptySt =
      .ok (update_resource
            { emptySt with visited := "http://h/x" :: emptySt.visited,
                           nodeFetchLog := emptySt.nodeFetchLog ++ ["http://h/x"] }
            "http://h/x" (classifySpec "http://h/x" none (some "http://h")).1
            (classifySpec "http://h/x" none (some "http://h")).2
            (some "http://h") "http://h" false (Json.obj []) Json.null Json.null) :=
  crawl_fetch_failure [] 2 "http://h/x" "http://h" (some "http://h") emptySt (by rfl) (by rfl)

/-! ## Termination and visit-once discipline of the crawl (claim C6) -/

/-- Session invariant: the urls fetched at crawl entry are pairwise distinct
and all recorded as visited. -/
def sessionInv (st : St) : Prop :=
  st.nodeFetchLog.Nodup ∧ ∀ u ∈ st.nodeFetchLog, u ∈ st.visited

/-- How one crawl step may evolve the session state: the visited set only
grows and the session invariant is preserved. -/
def crawlStep (a b : St) : Prop :=
  a.visited ⊆ b.visited ∧ (sessionInv a → sessionInv b)

theorem crawlStep_refl (a : St) : crawlStep a a :=
  ⟨fun _ hx => hx, id⟩

theorem crawlStep_trans {a b c : St} (h1 : crawlStep a b) (h2 : crawlStep b c) :
    crawlStep a c :=
  ⟨fun _ hx => h2.1 (h1.1 hx), fun hi => h2.2 (h1.2 hi)⟩

/-- The operation leaves the visited set and the entry-fetch log untouched. -/
def sessSame (a b : St) : Prop :=
  b.visited = a.visited ∧ b.nodeFetchLog = a.nodeFetchLog

theorem sessSame_refl (a : St) : sessSame a a :=
  ⟨rfl, rfl⟩

theorem sessSame_trans {a b c : St} (h1 : sessSame a b) (h2 : sessSame b c) : sessSame a c :=
  ⟨h2.1.trans h1.1, h2.2.trans h1.2⟩

theorem sessSame_crawlStep {a b : St} (h : sessSame a b) : crawlStep a b := by
  refine ⟨fun x hx => ?_, fun hi => ?_⟩
  · rw [h.1]; exact hx
  · unfold sessionInv
    rw [h.1, h.2]
    exact hi

theorem contains_false_not_mem {l : List String} {a : String}
    (h : l.contains a = false) : a ∉ l := by
  intro hm
  have : l.contains a = true := by
    simpa using hm
  rw [this] at h
  cases h

theorem update_resource_sessSame (st : St) (url res_type : String) (res_subtype : Json)
    (parent_url : Option String) (server_url : String) (accessible : Bool)
    (metadata name description : Json) :
    sessSame st (update_resource st url res_type res_subtype parent_url server_url
      accessible metadata name description) :=
  ⟨(update_resource_frame st url res_type res_subtype parent_url server_url accessible
      metadata name description).2.2.2.1,
   (update_resource_frame st url res_type res_subtype parent_url server_url accessible
      metadata name description).2.2.2.2.1⟩

theorem update_resource_sessSame_imp {st : St} {url res_type : String} {res_subtype : Json}
    {parent_url : Option String} {server_url : String} {accessible : Bool}
    {metadata name description : Json} :
    sessSame st (update_resource st url res_type res_subtype parent_url server_url
      accessible metadata name description) :=
  update_resource_sessSame st url res_type res_subtype parent_url server_url accessible
    metadata name description

theorem update_field_sessSame (st : St) (ru : String) (fj : Json) (st' : St)
    (h : update_field st ru fj = .ok st') : sessSame st st' :=
  ⟨(update_field_ok_inv st ru fj st' h).2.2.2.1,
   (update_field_ok_inv st ru fj st' h).2.2.2.2.1⟩

theorem processCodedValues_sessSame (ru : String) (fn : Json) :
    ∀ (cvs : List Json) (st st' : St),
    processCodedValues ru fn cvs st = .ok st' → sessSame st st'
  | [], st, st', h => by
    simp only [processCodedValues, epure_ok] at h
    subst h
    exact sessSame_refl st
  | cv :: rest, st, st', h => by
    unfold processCodedValues at h
    simp only [ebind_ok] at h
    obtain ⟨code, _, h⟩ := h
    obtain ⟨nm, _, h⟩ := h
    have hmid := processCodedValues_sessSame ru fn rest
      (insert_domain st ru fn code nm) st' h
    exact ⟨hmid.1, hmid.2⟩

theorem process_field_domain_sessSame (st : St) (ru : String) (fj : Json) (st' : St)
    (h : process_field_domain st ru fj = .ok st') : sessSame st st' := by
  unfold process_field_domain at h
  simp only [ebind_ok] at h
  obtain ⟨dom, _, h⟩ := h
  split at h
  · simp only [ebind_ok] at h
    obtain ⟨hasCV, _, h⟩ := h
    split at h
    · simp only [ebind_ok] at h
      obtain ⟨cvs, _, h⟩ := h
      obtain ⟨cvList, _, h⟩ := h
      obtain ⟨fn, _, h⟩ := h
      exact processCodedValues_sessSame ru fn cvList st st' h
    · rw [epure_ok] at h
      subst h
      exact sessSame_refl st
  · rw [epure_ok] at h
    subst h
    exact sessSame_refl st

theorem processFields_sessSame (lu : String) :
    ∀ (fl : List Json) (st st' : St),
    processFields lu fl st = .ok st' → sessSame st st'
  | [], st, st', h => by
    simp only [processFields, epure_ok] at h
    subst h
    exact sessSame_refl st
  | fj :: rest, st, st', h => by
    unfold processFields at h
    simp only [ebind_ok] at h
    obtain ⟨st1, h1, h⟩ := h
    obtain ⟨st2, h2, h⟩ := h
    exact sessSame_trans (update_field_sessSame st lu fj st1 h1)
      (sessSame_trans (process_field_domain_sessSame st1 lu fj st2 h2)
        (processFields_sessSame lu rest st2 st' h))

theorem processLayers_sessSame (cat : Catalog) (url server_url : String) :
    ∀ (ll : List Json) (st st' : St),
    processLayers cat url server_url ll st = .ok st' → sessSame st st'
  | [], st, st', h => by
    simp only [processLayers, epure_ok] at h
    subst h
    exact sessSame_refl st
  | layer :: rest, st, st', h => by
    unfold processLayers at h
    simp only [ebind_ok] at h
    obtain ⟨lid, _, h⟩ := h
    split at h
    · split at h
      · simp only [ebind_ok] at h
        obtain ⟨ln, _, h⟩ := h
        obtain ⟨ld, _, h⟩ := h
        obtain ⟨ls, _, h⟩ := h
        obtain ⟨fieldsJ, _, h⟩ := h
        obtain ⟨fl, _, h⟩ := h
        obtain ⟨y, hy, htail⟩ := h
        have h2 := processFields_sessSame _ fl _ _ hy
        have h3 := processLayers_sessSame cat url server_url rest y st' htail
        have hc := sessSame_trans (sessSame_trans update_resource_sessSame_imp h2) h3
        exact ⟨hc.1, hc.2⟩
      · simp only [ebind_ok, epure_ok] at h
        obtain ⟨y, hy, htail⟩ := h
        subst hy
        have h3 := processLayers_sessSame cat url server_url rest _ st' htail
        have hc := sessSame_trans update_resource_sessSame_imp h3
        exact ⟨hc.1, hc.2⟩
    · simp only [ebind_ok, epure_ok] at h
      obtain ⟨y, hy, htail⟩ := h
      subst hy
      have h3 := processLayers_sessSame cat url server_url rest _ st' htail
      have hc := sessSame_trans update_resource_sessSame_imp h3
      exact ⟨hc.1, hc.2⟩

theorem processTables_sessSame (cat : Catalog) (url server_url : String) :
    ∀ (tl : List Json) (st st' : St),
    processTables cat url server_url tl st = .ok st' → sessSame st st'
  | [], st, st', h => by
    simp only [processTables, epure_ok] at h
    subst h
    exact sessSame_refl st
  | table :: rest, st, st', h => by
    unfold processTables at h
    simp only [ebind_ok] at h
    obtain ⟨tid, _, h⟩ := h
    split at h
    · split at h
      · simp only [ebind_ok] at h
        obtain ⟨tn, _, h⟩ := h
        obtain ⟨td, _, h⟩ := h
        obtain ⟨fieldsJ, _, h⟩ := h
        obtain ⟨fl, _, h⟩ := h
        obtain ⟨y, hy, htail⟩ := h
        have h2 := processFields_sessSame _ fl _ _ hy
        have h3 := processTables_sessSame cat url server_url rest y st' htail
        have hc := sessSame_trans (sessSame_trans update_resource_sessSame_imp h2) h3
        exact ⟨hc.1, hc.2⟩
      · simp only [ebind_ok, epure_ok] at h
        obtain ⟨y, hy, htail⟩ := h
        subst hy
        have h3 := processTables_sessSame cat url server_url rest _ st' htail
        have hc := sessSame_trans update_resource_sessSame_imp h3
        exact ⟨hc.1, hc.2⟩
    · simp only [ebind_ok, epure_ok] at h
      obtain ⟨y, hy, htail⟩ := h
      subst hy
      have h3 := processTables_sessSame cat url server_url rest _ st' htail
      have hc := sessSame_trans update_resource_sessSame_imp h3
      exact ⟨hc.1, hc.2⟩

theorem processFolders_crawlStep (rec : String → St → Except CrawlErr St) (url : String)
    (hrec : ∀ u s s', rec u s = .ok s' → crawlStep s s') :
    ∀ (xs : List Json) (st st' : St),
    processFolders rec url xs st = .ok st' → crawlStep st st'
  | [], st, st', h => by
    simp only [processFolders, epure_ok] at h
    subst h
    exact crawlStep_refl st
  | f :: rest, st, st', h => by
    unfold processFolders at h
    cases f with
    | str fs =>
      simp only [ebind_ok] at h
      obtain ⟨st1, h1, h⟩ := h
      exact crawlStep_trans (hrec _ _ _ h1)
        (processFolders_crawlStep rec url hrec rest st1 st' h)
    | null => simp at h
    | bool b => simp at h
    | num n => simp at h
    | arr xs => simp at h
    | obj kvs => simp at h

theorem processServices_crawlStep (rec : String → St → Except CrawlErr St) (url : String)
    (hrec : ∀ u s s', rec u s = .ok s' → crawlStep s s') :
    ∀ (xs : List Json) (st st' : St),
    processServices rec url xs st = .ok st' → crawlStep st st'
  | [], st, st', h => by
    simp only [processServices, epure_ok] at h
    subst h
    exact crawlStep_refl st
  | svc :: rest, st, st', h => by
    unfold processServices at h
    simp only [ebind_ok] at h
    obtain ⟨nj, _, h⟩ := h
    obtain ⟨tj, _, h⟩ := h
    split at h
    · simp only [ebind_ok, epure_ok] at h
      obtain ⟨surl, hsurl, h⟩ := h
      split at h
      · simp only [ebind_ok, epure_ok] at h
        obtain ⟨y, hy, htail⟩ := h
        subst hy
        exact processServices_crawlStep rec url hrec rest st st' htail
      · simp only [ebind_ok] at h
        obtain ⟨y, hy, htail⟩ := h
        exact crawlStep_trans (hrec _ _ _ hy)
          (processServices_crawlStep rec url hrec rest y st' htail)
    · split at h
      · simp only [ebind_ok, epure_ok] at h
        obtain ⟨surl, hsurl, h⟩ := h
        split at h
        · simp only [ebind_ok, epure_ok] at h
          obtain ⟨y, hy, htail⟩ := h
          subst hy
          exact processServices_crawlStep rec url hrec rest st st' htail
        · simp only [ebind_ok] at h
          obtain ⟨y, hy, htail⟩ := h
          exact crawlStep_trans (hrec _ _ _ hy)
            (processServices_crawlStep rec url hrec rest y st' htail)
      · simp only [ebind_ok] at h
        obtain ⟨y, hy, -⟩ := h
        exact Except.noConfusion hy

theorem stageFolders_crawlStep (rec : String → St → Except CrawlErr St) (url : String)
    (data : Json) (hrec : ∀ u s s', rec u s = .ok s' → crawlStep s s') (st st' : St)
    (h : stageFolders rec url data st = .ok st') : crawlStep st st' := by
  unfold stageFolders at h
  simp only [ebind_ok] at h
  obtain ⟨hasF, _, h⟩ := h
  split at h
  · simp only [ebind_ok] at h
    obtain ⟨fj, _, h⟩ := h
    obtain ⟨fl, _, h⟩ := h
    exact processFolders_crawlStep rec url hrec fl st st' h
  · rw [epure_ok] at h
    subst h
    exact crawlStep_refl st

theorem stageServices_crawlStep (rec : String → St → Except CrawlErr St) (url : String)
    (data : Json) (hrec : ∀ u s s', rec u s = .ok s' → crawlStep s s') (st st' : St)
    (h : stageServices rec url data st = .ok st') : crawlStep st st' := by
  unfold stageServices at h
  simp only [ebind_ok] at h
  obtain ⟨hasS, _, h⟩ := h
  split at h
  · simp only [ebind_ok] at h
    obtain ⟨sj, _, h⟩ := h
    obtain ⟨sl, _, h⟩ := h
    exact processServices_crawlStep rec url hrec sl st st' h
  · rw [epure_ok] at h
    subst h
    exact crawlStep_refl st

theorem stageLayers_sessSame (cat : Catalog) (url server_url : String) (data : Json)
    (st st' : St) (h : stageLayers cat url server_url data st = .ok st') :
    sessSame st st' := by
  unfold stageLayers at h
  simp only [ebind_ok] at h
  obtain ⟨hasL, _, h⟩ := h
  split at h
  · simp only [ebind_ok] at h
    obtain ⟨lj, _, h⟩ := h
    obtain ⟨ll, _, h⟩ := h
    exact processLayers_sessSame cat url server_url ll st st' h
  · rw [epure_ok] at h
    subst h
    exact sessSame_refl st

theorem stageTables_sessSame (cat : Catalog) (url server_url : String) (data : Json)
    (st st' : St) (h : stageTables cat url server_url data st = .ok st') :
    sessSame st st' := by
  unfold stageTables at h
  simp only [ebind_ok] at h
  obtain ⟨hasT, _, h⟩ := h
  split at h
  · simp only [ebind_ok] at h
    obtain ⟨tj, _, h⟩ := h
    obtain ⟨tl, _, h⟩ := h
    exact processTables_sessSame cat url server_url tl st st' h
  · rw [epure_ok] at h
    subst h
    exact sessSame_refl st

theorem markLog_crawlStep (st : St) (url : String) (h : st.visited.contains url = false) :
    crawlStep st { st with visited := url :: st.visited,
                           nodeFetchLog := st.nodeFetchLog ++ [url] } := by
  have hnv : url ∉ st.visited := contains_false_not_mem h
  refine ⟨fun _ hx => List.mem_cons_of_mem _ hx, fun hi => ⟨?_, ?_⟩⟩
  · have hnlog : url ∉ st.nodeFetchLog := fun hm => hnv (hi.2 url hm)
    simp [List.nodup_append, hi.1, hnlog]
  · intro u hu
    rcases List.mem_append.mp hu with hu | hu
    · exact List.mem_cons_of_mem _ (hi.2 u hu)
    · simp only [List.mem_singleton] at hu
      subst hu
      exact List.mem_cons_self _ _

theorem crawl_crawlStep : ∀ (fuel : Nat) (cat : Catalog) (url server : String)
    (parent : Option String) (st st' : St),
    crawl cat fuel url server parent st = .ok st' → crawlStep st st'
  | 0, cat, url, server, parent, st, st', h => by
    simp [crawl] at h
  | fuel + 1, cat, url, server, parent, st, st', h => by
    unfold crawl at h
    split at h
    · rw [epure_ok] at h
      subst h
      exact crawlStep_refl st
    · rename_i hcont
      have hcontf : st.visited.contains url = false := by
        cases hc : st.visited.contains url
        · rfl
        · exact absurd hc hcont
      simp only [ebind_ok] at h
      obtain ⟨cls, _, h⟩ := h
      obtain ⟨nd, _, h⟩ := h
      split at h
      · rw [epure_ok] at h
        subst h
        exact crawlStep_trans (markLog_crawlStep st url hcontf)
          (sessSame_crawlStep update_resource_sessSame_imp)
      · simp only [ebind_ok] at h
        obtain ⟨stA, hA, h⟩ := h
        obtain ⟨stB, hB, h⟩ := h
        obtain ⟨stC, hC, h⟩ := h
        have hrec : ∀ u s s', crawl cat fuel u server (some url) s = .ok s' →
            crawlStep s s' := fun u s s' hh => crawl_crawlStep fuel cat u server (some url) s s' hh
        have s0 : crawlStep st (update_resource
            { st with visited := url :: st.visited, nodeFetchLog := st.nodeFetchLog ++ [url] }
            url cls.1 nd.2.2 parent server (fetchJson cat url).isSome
            ((fetchJson cat url).getD (Json.obj [])) nd.1 nd.2.1) :=
          crawlStep_trans (markLog_crawlStep st url hcontf)
            (sessSame_crawlStep update_resource_sessSame_imp)
        have s1 := stageFolders_crawlStep _ url _ hrec _ stA hA
        have s2 := stageServices_crawlStep _ url _ hrec stA stB hB
        have s3 := sessSame_crawlStep (stageLayers_sessSame cat url server _ stB stC hC)
        have s4 := sessSame_crawlStep (stageTables_sessSame cat url server _ stC st' h)
        exact crawlStep_trans s0
          (crawlStep_trans s1
            (crawlStep_trans s2 (crawlStep_trans s3 s4)))

/-- The computation does not exhaust the embedding's fuel: every error it can
produce is a Python exception, so under enough fuel the crawl terminates in
the source's sense (normal return or a raised exception). -/
def NFx {α : Type} (e : Except CrawlErr α) : Prop :=
  e ≠ .error .fuelOut

theorem ebind_nf {α β : Type} {e : Except CrawlErr α} {f : α → Except CrawlErr β}
    (he : NFx e) (hf : ∀ a, e = .ok a → NFx (f a)) : NFx (e >>= f) := by
  cases e with
  | error err => simpa [NFx, Bind.bind, Except.bind] using he
  | ok a => simpa [NFx, Bind.bind, Except.bind] using hf a rfl

theorem epure_nf {α : Type} (a : α) : NFx (pure a : Except CrawlErr α) := by
  simp [NFx, pure, Except.pure]

theorem pyErr_nf {α : Type} (msg : String) :
    NFx (.error (.pyErr msg) : Except CrawlErr α) := by
  simp [NFx]

theorem pyGet_nf (j : Json) (k : String) : NFx (pyGet j k) := by
  unfold pyGet
  cases j <;> simp [NFx]
  split <;> simp

theorem pyGetItem_nf (j : Json) (k : String) : NFx (pyGetItem j k) := by
  unfold pyGetItem
  cases j <;> simp [NFx]
  split <;> simp

theorem pyInE_nf (k : String) (j : Json) : NFx (pyInE k j) := by
  unfold pyInE
  cases j <;> simp [NFx]

theorem pyIter_nf (j : Json) : NFx (pyIter j) := by
  unfold pyIter
  cases j <;> simp [NFx]

theorem classify_nf (url : String) (data : Option Json) (parent : Option String) :
    NFx (classify_resource url data parent) := by
  unfold classify_resource
  split
  · exact epure_nf _
  · cases data with
    | none =>
      simp only []
      refine ebind_nf (epure_nf _) (fun y _ => ?_)
      split
      · exact epure_nf _
      · split <;> exact epure_nf _
    | some d =>
      simp only []
      split
      · refine ebind_nf (pyInE_nf _ _) (fun hf _ => ?_)
        split
        · refine ebind_nf (epure_nf _) (fun y _ => ?_)
          split
          · exact epure_nf _
          · split <;> exact epure_nf _
        · refine ebind_nf (pyInE_nf _ _) (fun y _ => ?_)
          split
          · exact epure_nf _
          · split <;> exact epure_nf _
      · refine ebind_nf (epure_nf _) (fun y _ => ?_)
        split
        · exact epure_nf _
        · split <;> exact epure_nf _

theorem deriveNameDesc_nf (res_type : String) (data? : Option Json) (sub : Json) :
    NFx (deriveNameDesc res_type data? sub) := by
  unfold deriveNameDesc
  split
  · split
    · split
      · refine ebind_nf (pyGet_nf _ _) (fun _ _ => ?_)
        refine ebind_nf (pyGet_nf _ _) (fun _ _ => ?_)
        refine ebind_nf (pyGet_nf _ _) (fun _ _ => ?_)
        exact epure_nf _
      · exact epure_nf _
    · exact epure_nf _
  · split
    · split
      · split
        · refine ebind_nf (pyGet_nf _ _) (fun _ _ => ?_)
          refine ebind_nf (pyGet_nf _ _) (fun _ _ => ?_)
          refine ebind_nf (pyGet_nf _ _) (fun _ _ => ?_)
          exact epure_nf _
        · exact epure_nf _
      · exact epure_nf _
    · exact epure_nf _

theorem update_field_nf (st : St) (ru : String) (fj : Json) : NFx (update_field st ru fj) := by
  unfold update_field
  refine ebind_nf (pyGet_nf _ _) (fun _ _ => ?_)
  refine ebind_nf (pyGet_nf _ _) (fun _ _ => ?_)
  refine ebind_nf (pyGet_nf _ _) (fun _ _ => ?_)
  split
  · split <;> exact epure_nf _
  · exact epure_nf _

theorem processCodedValues_nf (ru : String) (fn : Json) :
    ∀ (cvs : List Json) (st : St), NFx (processCodedValues ru fn cvs st)
  | [], st => epure_nf st
  | cv :: rest, st => by
    unfold processCodedValues
    refine ebind_nf (pyGet_nf _ _) (fun _ _ => ?_)
    refine ebind_nf (pyGet_nf _ _) (fun _ _ => ?_)
    exact processCodedValues_nf ru fn rest _

theorem process_field_domain_nf (st : St) (ru : String) (fj : Json) :
    NFx (process_field_domain st ru fj) := by
  unfold process_field_domain
  refine ebind_nf (pyGet_nf _ _) (fun dom _ => ?_)
  split
  · refine ebind_nf (pyInE_nf _ _) (fun hasCV _ => ?_)
    split
    · refine ebind_nf (pyGetItem_nf _ _) (fun cvs _ => ?_)
      refine ebind_nf (pyIter_nf _) (fun cvList _ => ?_)
      refine ebind_nf (pyGet_nf _ _) (fun fn _ => ?_)
      exact processCodedValues_nf ru fn cvList st
    · exact epure_nf st
  · exact epure_nf st

theorem processFields_nf (lu : String) :
    ∀ (fl : List Json) (st : St), NFx (processFields lu fl st)
  | [], st => epure_nf st
  | fj :: rest, st => by
    unfold processFields
    refine ebind_nf (update_field_nf st lu fj) (fun st1 _ => ?_)
    refine ebind_nf (process_field_domain_nf st1 lu fj) (fun st2 _ => ?_)
    exact processFields_nf lu rest st2

theorem processLayers_nf (cat : Catalog) (url server_url : String) :
    ∀ (ll : List Json) (st : St), NFx (processLayers cat url server_url ll st)
  | [], st => epure_nf st
  | layer :: rest, st => by
    unfold processLayers
    refine ebind_nf (pyGet_nf _ _) (fun lid _ => ?_)
    simp only []
    split
    · split
      · refine ebind_nf (pyGet_nf _ _) (fun _ _ => ?_)
        refine ebind_nf (pyGet_nf _ _) (fun _ _ => ?_)
        refine ebind_nf (pyGet_nf _ _) (fun _ _ => ?_)
        refine ebind_nf (pyGet_nf _ _) (fun _ _ => ?_)
        refine ebind_nf (pyIter_nf _) (fun fl _ => ?_)
        refine ebind_nf (processFields_nf _ fl _) (fun y _ => ?_)
        exact processLayers_nf cat url server_url rest y
      · refine ebind_nf (epure_nf _) (fun y _ => ?_)
        exact processLayers_nf cat url server_url rest y
    · refine ebind_nf (epure_nf _) (fun y _ => ?_)
      exact processLayers_nf cat url server_url rest y

theorem processTables_nf (cat : Catalog) (url server_url : String) :
    ∀ (tl : List Json) (st : St), NFx (processTables cat url server_url tl st)
  | [], st => epure_nf st
  | table :: rest, st => by
    unfold processTables
    refine ebind_nf (pyGet_nf _ _) (fun tid _ => ?_)
    simp only []
    split
    · split
      · refine ebind_nf (pyGet_nf _ _) (fun _ _ => ?_)
        refine ebind_nf (pyGet_nf _ _) (fun _ _ => ?_)
        refine ebind_nf (pyGet_nf _ _) (fun _ _ => ?_)
        refine ebind_nf (pyIter_nf _) (fun fl _ => ?_)
        refine ebind_nf (processFields_nf _ fl _) (fun y _ => ?_)
        exact processTables_nf cat url server_url rest y
      · refine ebind_nf (epure_nf _) (fun y _ => ?_)
        exact processTables_nf cat url server_url rest y
    · refine ebind_nf (epure_nf _) (fun y _ => ?_)
      exact processTables_nf cat url server_url rest y

theorem stageLayers_nf (cat : Catalog) (url server_url : String) (data : Json) (st : St) :
    NFx (stageLayers cat url server_url data st) := by
  unfold stageLayers
  refine ebind_nf (pyInE_nf _ _) (fun hasL _ => ?_)
  split
  · refine ebind_nf (pyGetItem_nf _ _) (fun lj _ => ?_)
    refine ebind_nf (pyIter_nf _) (fun ll _ => ?_)
    exact processLayers_nf cat url server_url ll st
  · exact epure_nf st

theorem stageTables_nf (cat : Catalog) (url server_url : String) (data : Json) (st : St) :
    NFx (stageTables cat url server_url data st) := by
  unfold stageTables
  refine ebind_nf (pyInE_nf _ _) (fun hasT _ => ?_)
  split
  · refine ebind_nf (pyGetItem_nf _ _) (fun tj _ => ?_)
    refine ebind_nf (pyIter_nf _) (fun tl _ => ?_)
    exact processTables_nf cat url server_url tl st
  · exact epure_nf st

/-- Termination measure: catalog keys (with multiplicity) not yet visited. -/
def unvisitedKeys (cat : Catalog) (st : St) : Nat :=
  List.countP (fun k => !st.visited.contains k) (cat.map (fun p => p.1))

theorem contains_true_of_mem {l : List String} {a : String} (h : a ∈ l) :
    l.contains a = true := by
  simpa using h

theorem contains_false_of_not_mem {l : List String} {a : String} (h : a ∉ l) :
    l.contains a = false := by
  cases hc : l.contains a with
  | false => rfl
  | true => exact absurd (by simpa using hc) h

theorem unvisitedKeys_mono (cat : Catalog) {st st' : St}
    (h : st.visited ⊆ st'.visited) :
    unvisitedKeys cat st' ≤ unvisitedKeys cat st := by
  refine List.countP_mono_left (fun k _ hk => ?_)
  simp only [Bool.not_eq_true'] at hk ⊢
  exact contains_false_of_not_mem (fun hm => contains_false_not_mem hk (h hm))

theorem countP_unvisited_cons (url : String) (visited : List String)
    (hnew : visited.contains url = false) :
    ∀ keys : List String, url ∈ keys →
    List.countP (fun k => !(url :: visited).contains k) keys + 1 ≤
      List.countP (fun k => !visited.contains k) keys
  | [], hmem => absurd hmem (List.not_mem_nil url)
  | k :: rest, hmem => by
    have hpoint : ∀ a : String, (!(url :: visited).contains a) = true →
        (!visited.contains a) = true := by
      intro a ha
      simp only [Bool.not_eq_true'] at ha ⊢
      exact contains_false_of_not_mem
        (fun hm => contains_false_not_mem ha (List.mem_cons_of_mem _ hm))
    rcases List.mem_cons.mp hmem with heq | hmem'
    · subst heq
      have hhead_new : (!(url :: visited).contains url) = false := by
        simp [contains_true_of_mem (List.mem_cons_self url visited)]
      have hhead_old : (!visited.contains url) = true := by
        simp only [Bool.not_eq_true']
        exact hnew
      have htail : List.countP (fun a => !(url :: visited).contains a) rest ≤
          List.countP (fun a => !visited.contains a) rest :=
        List.countP_mono_left (fun a _ ha => hpoint a ha)
      simp only [List.countP_cons, hhead_new, hhead_old, Bool.false_eq_true, if_false,
        if_true]
      omega
    · have hIH := countP_unvisited_cons url visited hnew rest hmem'
      simp only [List.countP_cons]
      by_cases hk : (!(url :: visited).contains k) = true
      · have hk2 := hpoint k hk
        simp only [hk, hk2, if_true]
        omega
      · have hk' : (!(url :: visited).contains k) = false := Bool.eq_false_iff.mpr hk
        simp only [hk', Bool.false_eq_true, if_false]
        split <;> omega

theorem fetchJson_isSome_mem {cat : Catalog} {url : String}
    (h : (fetchJson cat url).isSome = true) : url ∈ cat.map (fun p => p.1) := by
  unfold fetchJson at h
  cases hf : List.find? (fun p => p.1 == url) cat with
  | none => rw [hf] at h; simp at h
  | some p =>
    have hmem := List.mem_of_find?_eq_some hf
    have hpred : p.1 = url := by simpa using List.find?_some hf
    exact List.mem_map.mpr ⟨p, hmem, hpred⟩

theorem processFolders_nf (cat : Catalog) (g : Nat) (rec : String → St → Except CrawlErr St)
    (url : String)
    (hrecNF : ∀ u s, unvisitedKeys cat s + 1 ≤ g → NFx (rec u s))
    (hrecMono : ∀ u s s', rec u s = .ok s' → s.visited ⊆ s'.visited) :
    ∀ (xs : List Json) (st : St), unvisitedKeys cat st + 1 ≤ g →
      NFx (processFolders rec url xs st)
  | [], st, _ => epure_nf st
  | f :: rest, st, hb => by
    unfold processFolders
    cases f with
    | str fs =>
      simp only []
      refine ebind_nf (hrecNF _ _ hb) (fun st1 h1 => ?_)
      refine processFolders_nf cat g rec url hrecNF hrecMono rest st1 ?_
      have := unvisitedKeys_mono cat (hrecMono _ _ _ h1)
      omega
    | null => exact pyErr_nf _
    | bool b => exact pyErr_nf _
    | num n => exact pyErr_nf _
    | arr xs => exact pyErr_nf _
    | obj kvs => exact pyErr_nf _

theorem processServices_nf (cat : Catalog) (g : Nat)
    (rec : String → St → Except CrawlErr St) (url : String)
    (hrecNF : ∀ u s, unvisitedKeys cat s + 1 ≤ g → NFx (rec u s))
    (hrecMono : ∀ u s s', rec u s = .ok s' → s.visited ⊆ s'.visited) :
    ∀ (xs : List Json) (st : St), unvisitedKeys cat st + 1 ≤ g →
      NFx (processServices rec url xs st)
  | [], st, _ => epure_nf st
  | svc :: rest, st, hb => by
    unfold processServices
    refine ebind_nf (pyGet_nf _ _) (fun nj _ => ?_)
    refine ebind_nf (pyGet_nf _ _) (fun tj _ => ?_)
    simp only []
    have hcont : ∀ surl : String, NFx (if st.visited.contains surl = true then
        (do
          let y ← pure st
          processServices rec url rest y)
        else do
          let y ← rec surl st
          processServices rec url rest y) := by
      intro surl
      split
      · refine ebind_nf (epure_nf _) (fun y hy => ?_)
        rw [epure_ok] at hy
        subst hy
        exact processServices_nf cat g rec url hrecNF hrecMono rest st hb
      · refine ebind_nf (hrecNF _ _ hb) (fun y hy => ?_)
        refine processServices_nf cat g rec url hrecNF hrecMono rest y ?_
        have := unvisitedKeys_mono cat (hrecMono _ _ _ hy)
        omega
    split
    · refine ebind_nf (epure_nf _) (fun surl _ => ?_)
      exact hcont surl
    · split
      · refine ebind_nf (epure_nf _) (fun surl _ => ?_)
        exact hcont surl
      · refine ebind_nf (pyErr_nf _) (fun surl hy => ?_)
        cases hy

theorem stageFolders_nf (cat : Catalog) (g : Nat) (rec : String → St → Except CrawlErr St)
    (url : String) (data : Json)
    (hrecNF : ∀ u s, unvisitedKeys cat s + 1 ≤ g → NFx (rec u s))
    (hrecMono : ∀ u s s', rec u s = .ok s' → s.visited ⊆ s'.visited)
    (st : St) (hb : unvisitedKeys cat st + 1 ≤ g) : NFx (stageFolders rec url data st) := by
  unfold stageFolders
  refine ebind_nf (pyInE_nf _ _) (fun hasF _ => ?_)
  split
  · refine ebind_nf (pyGetItem_nf _ _) (fun fj _ => ?_)
    refine ebind_nf (pyIter_nf _) (fun fl _ => ?_)
    exact processFolders_nf cat g rec url hrecNF hrecMono fl st hb
  · exact epure_nf st

theorem stageServices_nf (cat : Catalog) (g : Nat) (rec : String → St → Except CrawlErr St)
    (url : String) (data : Json)
    (hrecNF : ∀ u s, unvisitedKeys cat s + 1 ≤ g → NFx (rec u s))
    (hrecMono : ∀ u s s', rec u s = .ok s' → s.visited ⊆ s'.visited)
    (st : St) (hb : unvisitedKeys cat st + 1 ≤ g) : NFx (stageServices rec url data st) := by
  unfold stageServices
  refine ebind_nf (pyInE_nf _ _) (fun hasS _ => ?_)
  split
  · refine ebind_nf (pyGetItem_nf _ _) (fun sj _ => ?_)
    refine ebind_nf (pyIter_nf _) (fun sl _ => ?_)
    exact processServices_nf cat g rec url hrecNF hrecMono sl st hb
  · exact epure_nf st

theorem crawl_nf : ∀ (fuel : Nat) (cat : Catalog) (url server : String)
    (parent : Option String) (st : St), unvisitedKeys cat st + 1 ≤ fuel →
    NFx (crawl cat fuel url server parent st)
  | 0, cat, url, server, parent, st, hb => absurd hb (by omega)
  | fuel + 1, cat, url, server, parent, st, hb => by
    unfold crawl
    split
    · exact epure_nf st
    · rename_i hcont
      have hcontf : st.visited.contains url = false := Bool.eq_false_iff.mpr hcont
      simp only []
      refine ebind_nf (classify_nf _ _ _) (fun cls _ => ?_)
      refine ebind_nf (deriveNameDesc_nf _ _ _) (fun nd _ => ?_)
      split
      · exact epure_nf _
      · rename_i hacc
        have hsome : (fetchJson cat url).isSome = true := by
          cases hc : (fetchJson cat url).isSome with
          | true => rfl
          | false => exact absurd (by simp [hc]) hacc
        have hmem := fetchJson_isSome_mem hsome
        have hdec : unvisitedKeys cat
            { st with visited := url :: st.visited,
                      nodeFetchLog := st.nodeFetchLog ++ [url] } + 1 ≤
              unvisitedKeys cat st :=
          countP_unvisited_cons url st.visited hcontf _ hmem
        have hveq := (update_resource_frame
          { st with visited := url :: st.visited,
                    nodeFetchLog := st.nodeFetchLog ++ [url] }
          url cls.1 nd.2.2 parent server (fetchJson cat url).isSome
          ((fetchJson cat url).getD (Json.obj [])) nd.1 nd.2.1).2.2.2.1
        have hb3 : unvisitedKeys cat (update_resource
            { st with visited := url :: st.visited,
                      nodeFetchLog := st.nodeFetchLog ++ [url] }
            url cls.1 nd.2.2 parent server (fetchJson cat url).isSome
            ((fetchJson cat url).getD (Json.obj [])) nd.1 nd.2.1) + 1 ≤ fuel := by
          have heqm : unvisitedKeys cat (update_resource
              { st with visited := url :: st.visited,
                        nodeFetchLog := st.nodeFetchLog ++ [url] }
              url cls.1 nd.2.2 parent server (fetchJson cat url).isSome
              ((fetchJson cat url).getD (Json.obj [])) nd.1 nd.2.1) =
              unvisitedKeys cat
              { st with visited := url :: st.visited,
                        nodeFetchLog := st.nodeFetchLog ++ [url] } := by
            unfold unvisitedKeys
            rw [hveq]
          omega
        have hrecNF : ∀ u s, unvisitedKeys cat s + 1 ≤ fuel →
            NFx (crawl cat fuel u server (some url) s) :=
          fun u s hbs => crawl_nf fuel cat u server (some url) s hbs
        have hrecMono : ∀ u s s', crawl cat fuel u server (some url) s = .ok s' →
            s.visited ⊆ s'.visited :=
          fun u s s' hh => (crawl_crawlStep fuel cat u server (some url) s s' hh).1
        refine ebind_nf (stageFolders_nf cat fuel _ url _ hrecNF hrecMono _ hb3)
          (fun stA hA => ?_)
        have hbA : unvisitedKeys cat stA + 1 ≤ fuel := by
          have := unvisitedKeys_mono cat
            (stageFolders_crawlStep _ url _
              (fun u s s' hh => crawl_crawlStep fuel cat u server (some url) s s' hh)
              _ stA hA).1
          omega
        refine ebind_nf (stageServices_nf cat fuel _ url _ hrecNF hrecMono stA hbA)
          (fun stB hB => ?_)
        refine ebind_nf (stageLayers_nf cat url server _ stB) (fun stC hC => ?_)
        exact stageTables_nf cat url server _ stC

/-- C6: the crawl terminates on every finite catalog graph — with fuel
exceeding the number of unvisited catalog keys it never exhausts the
embedding's fuel, so every outcome is the program's own (a normal return or a
raised Python error) — it processes each crawl-entry URL at most once (the
entry-fetch log stays duplicate-free and inside the visited set), and a url
already in the visited set returns immediately with the state untouched,
before any fetch or persistence. -/
theorem crawl_terminates_and_visits_once :
    (∀ (cat : Catalog) (fuel : Nat) (url server : String) (parent : Option String)
       (st : St), unvisitedKeys cat st + 1 ≤ fuel →
      crawl cat fuel url server parent st ≠ .error .fuelOut) ∧
    (∀ (cat : Catalog) (fuel : Nat) (url server : String) (parent : Option String)
       (st st' : St), crawl cat fuel url server parent st = .ok st' →
      sessionInv st → sessionInv st') ∧
    (∀ (cat : Catalog) (fuel : Nat) (url server : String) (parent : Option String)
       (st : St), st.visited.contains url = true → 0 < fuel →
      crawl cat fuel url server parent st = .ok st) := by
  refine ⟨fun cat fuel url server parent st hb =>
      crawl_nf fuel cat url server parent st hb,
    fun cat fuel url server parent st st' h hi =>
      (crawl_crawlStep fuel cat url server parent st st' h).2 hi,
    fun cat fuel url server parent st hv hf => ?_⟩
  cases fuel with
  | zero => omega
  | succ f =>
    unfold crawl
    rw [if_pos hv]
    rfl

/-- Cyclic two-node catalog: node a lists node b as a child folder (by
absolute URL) and b lists a. -/
def cyc : Catalog :=
  [ ("http://h/a", Json.obj [("folders", Json.arr [Json.str "http://h/b"])]),
    ("http://h/b", Json.obj [("folders", Json.arr [Json.str "http://h/a"])]) ]

theorem crawl_terminates_and_visits_once_witness :
    crawl cyc 3 "http://h/a" "http://h/a" none emptySt ≠ .error .fuelOut ∧
    sessionInv ((crawl cyc 3 "http://h/a" "http://h/a" none emptySt).toOption.getD emptySt) ∧
    crawl cyc 3 "http://h/a" "http://h/a" none
        { emptySt with visited := ["http://h/a"] } =
      .ok { emptySt with visited := ["http://h/a"] } :=
  ⟨crawl_terminates_and_visits_once.1 cyc 3 "http://h/a" "http://h/a" none emptySt
     (by decide),
   crawl_terminates_and_visits_once.2.1 cyc 3 "http://h/a" "http://h/a" none emptySt
     ((crawl cyc 3 "http://h/a" "http://h/a" none emptySt).toOption.getD emptySt)
     (by rfl) ⟨List.nodup_nil, by simp [emptySt]⟩,
   crawl_terminates_and_visits_once.2.2 cyc 3 "http://h/a" "http://h/a" none
     { emptySt with visited := ["http://h/a"] } (by decide) (by decide)⟩
